import Mathlib

/-
Verification development for the ycbetter repository (a Hacker-News-style
link aggregator).  The definitions below are a shallow embedding of the
server's domain operations, translated from `src/server/adapter.ts`
(the comment routes, the post routes) and from the Hono application's
central error handler.  The relational store is modelled as lists of rows
whose fields follow the SQL schema in the migration file; SQL statements
are modelled as list operations (`filter` for WHERE, `map` for UPDATE,
append for INSERT, `head?` for LIMIT 1 / taking the first returned row),
and `db.transaction` as an `Except`-valued computation whose error result
leaves the committed state unchanged (`commitState`).
-/

/-! ## Data model (rows follow the SQL schema of the migration file) -/

/-- A row of the `user` table: id (text PK), username, password_hash. -/
structure UserRow where
  id : String
  username : String
  passwordHash : String
deriving Repr, DecidableEq

/-- A row of the `posts` table.  `createdAt` is a timestamp modelled as a
natural number; `points` and `commentCount` are integer counters with
default 0. -/
structure PostRow where
  id : Nat
  userId : String
  title : String
  url : Option String
  content : Option String
  points : Int
  commentCount : Int
  createdAt : Nat
deriving Repr, DecidableEq

/-- A row of the `comments` table.  `parentCommentId` is nullable
(`none` for a root comment), `depth` defaults to 0. -/
structure CommentRow where
  id : Nat
  userId : String
  postId : Nat
  parentCommentId : Option Nat
  content : String
  createdAt : Nat
  depth : Int
  commentCount : Int
  points : Int
deriving Repr, DecidableEq

/-- A row of the `post_upvotes` table (serial PK `id`). -/
structure PostUpvoteRow where
  id : Nat
  postId : Nat
  userId : String
  createdAt : Nat
deriving Repr, DecidableEq

/-- A row of the `comment_upvotes` table (serial PK `id`). -/
structure CommentUpvoteRow where
  id : Nat
  commentId : Nat
  userId : String
  createdAt : Nat
deriving Repr, DecidableEq

/-- The relational store: the five tables the domain operations touch,
plus the next value of each serial-id sequence used by the inserts the
routes perform. -/
structure DB where
  users : List UserRow
  posts : List PostRow
  comments : List CommentRow
  postUpvotes : List PostUpvoteRow
  commentUpvotes : List CommentUpvoteRow
  nextCommentId : Nat
  nextPostUpvoteId : Nat
  nextCommentUpvoteId : Nat
deriving Repr, DecidableEq

/-- The empty initial store; Postgres serial sequences start at 1. -/
def initDB : DB := ⟨[], [], [], [], [], 1, 1, 1⟩

/-- The authenticated caller as the Hono context carries it
(`c.get("user")` after the `loggedin` middleware): id and username. -/
structure CtxUser where
  id : String
  username : String
deriving Repr, DecidableEq

/-- An `HTTPException(status, \x7bmessage\x7d)` thrown inside a route. -/
structure HErr where
  status : Nat
  message : String
deriving Repr, DecidableEq

/-- `db.transaction` semantics: a thrown exception aborts the transaction,
so the committed state is the new state on success and the unchanged input
state on error. -/
def commitState {α : Type} (db : DB) (r : Except HErr (DB × α)) : DB :=
  match r with
  | .ok (db2, _) => db2
  | .error _ => db

/-! ## Validated query input -/

/-- `sortBy === "points" ? points-column : createdAt-column`. -/
inductive SortBy
  | points
  | recent
deriving Repr, DecidableEq

/-- `order === "desc" ? desc(col) : asc(col)`. -/
inductive Order
  | asc
  | desc
deriving Repr, DecidableEq

/-- The output of the validated `paginationSchema` query input as the
listing routes destructure it: limit, page, sortBy, order and the
optional author/site filters used by `GET /posts`. -/
structure PaginationQuery where
  limit : Nat
  page : Nat
  sortBy : SortBy
  order : Order
  author : Option String
  site : Option String
deriving Repr, DecidableEq

/-! ## Sorting (ORDER BY) -/

/-- Insert into a sorted list, used to model the SQL ORDER BY.  Claims in
this development never depend on the produced order, only on membership. -/
def insertSorted {α : Type} (le : α → α → Bool) (a : α) : List α → List α
  | [] => [a]
  | b :: bs => if le a b then a :: b :: bs else b :: insertSorted le a bs

/-- Sort a list of rows by a boolean comparator (the ORDER BY clause). -/
def sortRows {α : Type} (le : α → α → Bool) : List α → List α
  | [] => []
  | a :: as => insertSorted le a (sortRows le as)

/-! ## Pagination arithmetic -/

/-- `totalPages` exactly as every listing route computes it:
the source expression is `Math.ceil(count?.count ?? 0 / limit)`.
In JavaScript `/` binds tighter than `??`, so this parses as
`Math.ceil(count?.count ?? (0 / limit))`.  The count subquery's value is
a natural number and `Math.ceil` of a natural number is that number;
in the fallback branch `0 / limit` is `0` for the validated `limit ≥ 1`
(Nat division also yields 0 there). -/
def totalPages (count : Option Nat) (limit : Nat) : Nat :=
  match count with
  | some c => c
  | none => 0 / limit

/-- The spec's stated contract for the same quantity, written from the
spec's words: `totalPages = ceil(count / limit)` (for `limit > 0` this
Nat formula is exactly the ceiling of the rational `count / limit`). -/
def totalPagesSpec (count : Nat) (limit : Nat) : Nat :=
  (count + limit - 1) / limit

/-- `countDistinct(id-column)` of a list of already-filtered rows:
the number of distinct ids among them. -/
def countDistinctIds {α : Type} (ids : α → Nat) (rows : List α) : Nat :=
  (rows.map ids).dedup.length

/-! ## Upvote toggle operations -/

/-- The `WHERE postId = id AND userId = user.id` rows of `post_upvotes`:
the rows the existing-upvote lookup of `POST /posts/:id/upvote` selects
from. -/
def postPairRows (db : DB) (t : Nat) (uid : String) : List PostUpvoteRow :=
  db.postUpvotes.filter (fun v => v.postId == t && v.userId == uid)

/-- The `WHERE commentId = id AND userId = user.id` rows of
`comment_upvotes`. -/
def commentPairRows (db : DB) (t : Nat) (uid : String) : List CommentUpvoteRow :=
  db.commentUpvotes.filter (fun v => v.commentId == t && v.userId == uid)

/-- `UPDATE posts SET points = points + delta WHERE id = t`, applied to a
single row. -/
def bumpPostPoints (t : Nat) (delta : Int) (p : PostRow) : PostRow :=
  if p.id == t then { p with points := p.points + delta } else p

/-- `UPDATE comments SET points = points + delta WHERE id = t`, applied to
a single row. -/
def bumpCommentPoints (t : Nat) (delta : Int) (c : CommentRow) : CommentRow :=
  if c.id == t then { c with points := c.points + delta } else c

/-- `POST /posts/:id/upvote` (route handler in adapter.ts): inside one
transaction, look up the caller's existing upvote row (limit 1), compute
`pointsChange = existing ? -1 : 1`, apply the atomic points increment and
read back the first returned row (404 `Post not found` if the update
affected no row), then delete the existing upvote by its id or insert a
fresh one.  Returns the new points and `isUpvoted = (pointsChange == 1)`. -/
def postsUpvote (db : DB) (user : CtxUser) (t : Nat) (now : Nat) :
    Except HErr (DB × Int × Bool) :=
  let existingUpvote := (postPairRows db t user.id).head?
  let pointsChange : Int := if existingUpvote.isSome then -1 else 1
  let posts1 := db.posts.map (bumpPostPoints t pointsChange)
  let updated := ((posts1.filter (fun p => p.id == t)).map (fun p => p.points)).head?
  match updated with
  | none => .error ⟨404, "Post not found"⟩
  | some points =>
    match existingUpvote with
    | some v =>
      .ok ({ db with
             posts := posts1
             postUpvotes := db.postUpvotes.filter (fun w => w.id != v.id) },
           points, false)
    | none =>
      .ok ({ db with
             posts := posts1
             postUpvotes := db.postUpvotes ++ [⟨db.nextPostUpvoteId, t, user.id, now⟩]
             nextPostUpvoteId := db.nextPostUpvoteId + 1 },
           points, true)

/-- `POST /comments/:id/upvote`: same toggle shape over `comments` and
`comment_upvotes`; its success payload reports
`commentUpvotes = pointsChange == 1 ? [\x7buserId\x7d] : []`, modelled as the
returned Bool. -/
def commentsUpvote (db : DB) (user : CtxUser) (t : Nat) (now : Nat) :
    Except HErr (DB × Int × Bool) :=
  let existingUpvote := (commentPairRows db t user.id).head?
  let pointsChange : Int := if existingUpvote.isSome then -1 else 1
  let comments1 := db.comments.map (bumpCommentPoints t pointsChange)
  let updated := ((comments1.filter (fun c => c.id == t)).map (fun c => c.points)).head?
  match updated with
  | none => .error ⟨404, "Comment not found"⟩
  | some points =>
    match existingUpvote with
    | some v =>
      .ok ({ db with
             comments := comments1
             commentUpvotes := db.commentUpvotes.filter (fun w => w.id != v.id) },
           points, false)
    | none =>
      .ok ({ db with
             comments := comments1
             commentUpvotes := db.commentUpvotes ++ [⟨db.nextCommentUpvoteId, t, user.id, now⟩]
             nextCommentUpvoteId := db.nextCommentUpvoteId + 1 },
           points, true)

/-! ## Comment creation operations -/

/-- `UPDATE comments SET comment_count = comment_count + 1 WHERE id = t`,
applied to a single row. -/
def bumpCommentCount (t : Nat) (c : CommentRow) : CommentRow :=
  if c.id == t then { c with commentCount := c.commentCount + 1 } else c

/-- `UPDATE posts SET comment_count = comment_count + 1 WHERE id = t`,
applied to a single row. -/
def bumpPostCommentCount (t : Nat) (p : PostRow) : PostRow :=
  if p.id == t then { p with commentCount := p.commentCount + 1 } else p

/-- The author object `\x7bid, username\x7d` attached to comment payloads. -/
structure CommentAuthorView where
  id : String
  username : String
deriving Repr, DecidableEq

/-- One element of a `commentUpvotes` collection in a response payload. -/
structure UpvoteView where
  userId : String
deriving Repr, DecidableEq

/-- A child comment as returned inside the shallow `childComments`
preview of `GET /posts/:id/comments`. -/
structure ChildCommentView where
  id : Nat
  userId : String
  postId : Nat
  parentCommentId : Option Nat
  content : String
  createdAt : Nat
  depth : Int
  commentCount : Int
  points : Int
  author : Option CommentAuthorView
  commentUpvotes : List UpvoteView
deriving Repr, DecidableEq

/-- A comment as the comment-returning routes serialize it: the comment
columns plus the author object, the caller-filtered `commentUpvotes`
collection, and the `childComments` preview (empty where the route
returns none). -/
structure CommentView where
  id : Nat
  userId : String
  postId : Nat
  parentCommentId : Option Nat
  content : String
  createdAt : Nat
  depth : Int
  commentCount : Int
  points : Int
  author : Option CommentAuthorView
  commentUpvotes : List UpvoteView
  childComments : List ChildCommentView
deriving Repr, DecidableEq

/-- `POST /comments/:id` (create a nested comment) inside one transaction:
select the parent comment by id (limit 1; 404 `Comment not found` when
absent), increment the parent's `commentCount`, increment the owning
post's `commentCount` (404 `Error creating comment` when either update
returns no row), then insert the new comment with
`depth = parent.depth + 1`, `parentCommentId = parent.id`,
`postId = parent.postId` and column defaults `points = 0`,
`commentCount = 0`.  The response payload carries the inserted row with
empty `childComments`/`commentUpvotes` and the caller as author. -/
def commentsCreate (db : DB) (user : CtxUser) (cid : Nat) (content : String)
    (now : Nat) : Except HErr (DB × CommentView) :=
  match (db.comments.filter (fun c => c.id == cid)).head? with
  | none => .error ⟨404, "Comment not found"⟩
  | some parentComment =>
    let comments1 := db.comments.map (bumpCommentCount parentComment.id)
    let updateParentComment :=
      ((comments1.filter (fun c => c.id == parentComment.id)).map
        (fun c => c.commentCount)).head?
    let posts1 := db.posts.map (bumpPostCommentCount parentComment.postId)
    let updatedPost :=
      ((posts1.filter (fun p => p.id == parentComment.postId)).map
        (fun p => p.commentCount)).head?
    match updatedPost, updateParentComment with
    | some _, some _ =>
      let newC : CommentRow :=
        ⟨db.nextCommentId, user.id, parentComment.postId, some parentComment.id,
         content, now, parentComment.depth + 1, 0, 0⟩
      .ok ({ db with
             comments := comments1 ++ [newC]
             posts := posts1
             nextCommentId := db.nextCommentId + 1 },
           ⟨newC.id, newC.userId, newC.postId, newC.parentCommentId, newC.content,
            newC.createdAt, newC.depth, newC.commentCount, newC.points,
            some ⟨user.id, user.username⟩, [], []⟩)
    | _, _ => .error ⟨404, "Error creating comment"⟩

/-- `POST /posts/:id/comment` (create a root comment) inside one
transaction: increment the post's `commentCount` (404 `Post not found`
when the update returns no row), then insert the comment with the column
defaults `depth = 0`, `parentCommentId = null`, `points = 0`,
`commentCount = 0`. -/
def postsCreateComment (db : DB) (user : CtxUser) (pid : Nat) (content : String)
    (now : Nat) : Except HErr (DB × CommentView) :=
  let posts1 := db.posts.map (bumpPostCommentCount pid)
  let updatedPost :=
    ((posts1.filter (fun p => p.id == pid)).map (fun p => p.commentCount)).head?
  match updatedPost with
  | none => .error ⟨404, "Post not found"⟩
  | some _ =>
    let newC : CommentRow := ⟨db.nextCommentId, user.id, pid, none, content, now, 0, 0, 0⟩
    .ok ({ db with
           posts := posts1
           comments := db.comments ++ [newC]
           nextCommentId := db.nextCommentId + 1 },
         ⟨newC.id, newC.userId, newC.postId, newC.parentCommentId, newC.content,
          newC.createdAt, newC.depth, newC.commentCount, newC.points,
          some ⟨user.id, user.username⟩, [], []⟩)

/-! ## Listing operations (read paths) -/

/-- The `pagination` object of a paginated response. -/
structure Pagination where
  page : Nat
  totalPages : Nat
deriving Repr, DecidableEq

/-- `PaginatedResponse`: success flag, message, data list and pagination. -/
structure PaginatedResponse (α : Type) where
  success : Bool
  message : String
  data : List α
  pagination : Pagination
deriving Repr, DecidableEq

/-- The author object `{username, id}` selected by the post listings. -/
structure PostAuthorView where
  username : String
  id : String
deriving Repr, DecidableEq

/-- One row of the `GET /posts` select: post columns, the joined author,
and the `idUpvoted` flag. -/
structure PostView where
  id : Nat
  title : String
  url : Option String
  content : Option String
  points : Int
  createdAt : Nat
  commentCount : Int
  author : Option PostAuthorView
  idUpvoted : Bool
deriving Repr, DecidableEq

/-- SQL LEFT JOIN against one left row: each matching right row produces
an output row; no match produces a single row with NULLs on the right. -/
def leftJoinRows {β : Type} (ms : List β) : List (Option β) :=
  match ms with
  | [] => [none]
  | ms => ms.map some

/-- The joined relation of `GET /posts`: posts LEFT JOIN user on
`posts.userId = user.id`, and — only when a caller is authenticated —
LEFT JOIN post_upvotes on `postId = posts.id AND userId = caller.id`. -/
def postsJoined (db : DB) (uid : Option String) :
    List (PostRow × Option UserRow × Option PostUpvoteRow) :=
  db.posts.flatMap (fun p =>
    (leftJoinRows (db.users.filter (fun u => u.id == p.userId))).flatMap (fun uo =>
      ((match uid with
       | none => [none]
       | some uid =>
         leftJoinRows (db.postUpvotes.filter
           (fun v => v.postId == p.id && v.userId == uid))
        : List (Option PostUpvoteRow))).map
        (fun vo => (p, uo, vo))))

/-- The WHERE predicate of `GET /posts`: the optional author and site
filters (an absent filter imposes no condition; `url = site` in SQL is
false on a NULL url). -/
def postsFilterPred (author site : Option String) (p : PostRow) : Bool :=
  (match author with
   | some a => p.userId == a
   | none => true) &&
  (match site with
   | some s => p.url == some s
   | none => true)

/-- The ORDER BY key of the post listings: points or createdAt. -/
def postSortKey (sb : SortBy) (p : PostRow) : Int :=
  match sb with
  | .points => p.points
  | .recent => p.createdAt

/-- The comparator `order === "desc" ? desc(col) : asc(col)` on joined
post rows. -/
def postsLe (sb : SortBy) (o : Order)
    (a b : PostRow × Option UserRow × Option PostUpvoteRow) : Bool :=
  match o with
  | .asc => decide (postSortKey sb a.1 ≤ postSortKey sb b.1)
  | .desc => decide (postSortKey sb b.1 ≤ postSortKey sb a.1)

/-- The SELECT projection of `GET /posts`: post columns, author object,
and `idUpvoted` — the SQL CASE over the joined upvote row for an
authenticated caller, the constant `sql false` for an anonymous one. -/
def selectPostRow (user : Option CtxUser)
    (r : PostRow × Option UserRow × Option PostUpvoteRow) : PostView :=
  ⟨r.1.id, r.1.title, r.1.url, r.1.content, r.1.points, r.1.createdAt,
   r.1.commentCount,
   r.2.1.map (fun u => ⟨u.username, u.id⟩),
   match user with
   | some _ => r.2.2.isSome
   | none => false⟩

/-- `GET /posts`: count the filtered posts (countDistinct on id), run the
filtered/sorted/paged joined query, and serialize with the pagination
object `{page, totalPages}`. -/
def postsList (db : DB) (user : Option CtxUser) (q : PaginationQuery) :
    PaginatedResponse PostView :=
  let offset := (q.page - 1) * q.limit
  let count := countDistinctIds PostRow.id
    (db.posts.filter (postsFilterPred q.author q.site))
  let rows := (((sortRows (postsLe q.sortBy q.order)
      ((postsJoined db (user.map (fun u => u.id))).filter
        (fun r => postsFilterPred q.author q.site r.1))).drop offset).take q.limit)
  ⟨true, "Posts fetched successfully", rows.map (selectPostRow user),
   ⟨q.page, totalPages (some count) q.limit⟩⟩

/-- `user?.id ?? ""`: the id string the comment listings filter their
`commentUpvotes` relation by (the empty-string sentinel for an anonymous
caller). -/
def userIdStr (user : Option CtxUser) : String :=
  match user with
  | some u => u.id
  | none => ""

/-- The `commentUpvotes` relation of the comment listings: the upvote
rows of the given comment filtered by `userId = user?.id ?? ""`, with
`limit 1`, projected to `{userId}`. -/
def commentVoteViews (db : DB) (uidStr : String) (cid : Nat) : List UpvoteView :=
  ((db.commentUpvotes.filter
    (fun v => v.commentId == cid && v.userId == uidStr)).take 1).map
    (fun v => ⟨v.userId⟩)

/-- The `author` relation of a comment: the user row referenced by
`comment.userId` (the user table's id is its primary key), projected to
`{id, username}`. -/
def commentAuthor (db : DB) (uid : String) : Option CommentAuthorView :=
  (db.users.find? (fun u => u.id == uid)).map (fun u => ⟨u.id, u.username⟩)

/-- The ORDER BY key of the comment listings. -/
def commentSortKey (sb : SortBy) (c : CommentRow) : Int :=
  match sb with
  | .points => c.points
  | .recent => c.createdAt

/-- The comparator on comment rows. -/
def commentsLe (sb : SortBy) (o : Order) (a b : CommentRow) : Bool :=
  match o with
  | .asc => decide (commentSortKey sb a ≤ commentSortKey sb b)
  | .desc => decide (commentSortKey sb b ≤ commentSortKey sb a)

/-- Serialize one comment of the `childComments` preview: comment columns
plus its author and caller-filtered `commentUpvotes`. -/
def selectChildComment (db : DB) (uidStr : String) (c : CommentRow) :
    ChildCommentView :=
  ⟨c.id, c.userId, c.postId, c.parentCommentId, c.content, c.createdAt, c.depth,
   c.commentCount, c.points, commentAuthor db c.userId,
   commentVoteViews db uidStr c.id⟩

/-- Serialize one root comment of `GET /posts/:id/comments`: comment
columns, author, caller-filtered `commentUpvotes`, and the sorted
`childComments` preview truncated to `includeChildren ? 2 : 0`. -/
def selectRootComment (db : DB) (uidStr : String) (sb : SortBy) (o : Order)
    (childLimit : Nat) (c : CommentRow) : CommentView :=
  ⟨c.id, c.userId, c.postId, c.parentCommentId, c.content, c.createdAt, c.depth,
   c.commentCount, c.points, commentAuthor db c.userId,
   commentVoteViews db uidStr c.id,
   ((sortRows (commentsLe sb o)
      (db.comments.filter (fun k => k.parentCommentId == some c.id))).take
     childLimit).map (selectChildComment db uidStr)⟩

/-- Serialize one reply of `GET /comments/:id/comments` (this route
queries no `childComments` relation, so the collection is empty). -/
def selectReplyComment (db : DB) (uidStr : String) (c : CommentRow) : CommentView :=
  ⟨c.id, c.userId, c.postId, c.parentCommentId, c.content, c.createdAt, c.depth,
   c.commentCount, c.points, commentAuthor db c.userId,
   commentVoteViews db uidStr c.id, []⟩

/-- `GET /posts/:id/comments`: check the post exists (`select 1 … limit 1`,
404 `Post not found` otherwise), count the root comments of the post
(`postId = id AND parentCommentId IS NULL`), then return the sorted/paged
root comments with their relations and the pagination object. -/
def postsListComments (db : DB) (user : Option CtxUser) (pid : Nat)
    (q : PaginationQuery) (includeChildren : Bool) :
    Except HErr (PaginatedResponse CommentView) :=
  match (db.posts.filter (fun p => p.id == pid)).head? with
  | none => .error ⟨404, "Post not found"⟩
  | some _ =>
    let roots := db.comments.filter
      (fun c => c.postId == pid && c.parentCommentId == none)
    let count := countDistinctIds CommentRow.id roots
    let rows := (((sortRows (commentsLe q.sortBy q.order) roots).drop
      ((q.page - 1) * q.limit)).take q.limit)
    .ok ⟨true, "Comments fetched successfully",
      rows.map (selectRootComment db (userIdStr user) q.sortBy q.order
        (if includeChildren then 2 else 0)),
      ⟨q.page, totalPages (some count) q.limit⟩⟩

/-- `GET /comments/:id/comments`: no existence check on the id — count
and return the comments whose `parentCommentId` equals the id, sorted and
paged, with the pagination object. -/
def commentsListReplies (db : DB) (user : Option CtxUser) (cid : Nat)
    (q : PaginationQuery) : PaginatedResponse CommentView :=
  let replies := db.comments.filter (fun c => c.parentCommentId == some cid)
  let count := countDistinctIds CommentRow.id replies
  let rows := (((sortRows (commentsLe q.sortBy q.order) replies).drop
    ((q.page - 1) * q.limit)).take q.limit)
  ⟨true, "Comment fetched successfully",
   rows.map (selectReplyComment db (userIdStr user)),
   ⟨q.page, totalPages (some count) q.limit⟩⟩

/-! ## The central error handler (`app.onError`) -/

/-- The `cause` attached to an `HTTPException`, as the handler inspects
it: `none` models an absent or non-object cause; `some c` an object
cause, whose `form` field is `none` when the key is absent and `some b`
for the value of `cause.form === true`. -/
structure CauseObj where
  form : Option Bool
deriving Repr, DecidableEq

/-- A JSON error body produced by the handler: the `ValidationErrorResponse`
shape `{success, error: {issues, name}}` or the `ErrorResponse` shape
`{success, error, isFormError?}` (`isFormError = none` when the field is
absent, as in the 500 branch). -/
inductive ErrBody
  | validation (success : Bool) (issues : List String) (name : String)
  | plain (success : Bool) (error : String) (isFormError : Option Bool)
deriving Repr, DecidableEq

/-- An HTTP response: status code and JSON body. -/
structure HttpResponse where
  status : Nat
  body : ErrBody
deriving Repr, DecidableEq

/-- An error value reaching `app.onError`: a `ZodError` carrying its issue
list, an `HTTPException` carrying status, message, cause and the optional
pre-built response `err.res`, or any other thrown error carrying its
message and optional stack. -/
inductive AppErr
  | zodError (issues : List String)
  | httpException (status : Nat) (message : String) (cause : Option CauseObj)
      (res : Option HttpResponse)
  | other (message : String) (stack : Option String)
deriving Repr, DecidableEq

/-- The handler's observable effects: the response it returns and the
server-side log entries it writes. -/
structure HandlerOutput where
  response : HttpResponse
  logs : List String
deriving Repr, DecidableEq

/-- `err.cause && typeof err.cause === "object" && "form" in err.cause
? err.cause.form === true : false`. -/
def isFormErrorOfCause (cause : Option CauseObj) : Bool :=
  match cause with
  | some c =>
    match c.form with
    | some b => b
    | none => false
  | none => false

/-- `app.onError` translated clause by clause: a `ZodError` becomes a 400
`ValidationErrorResponse`; an `HTTPException` returns `err.res` when
present and otherwise a response with the exception's status, its message
and `isFormError` from the cause; anything else becomes a 500 whose body
is the fixed string in production and `err.stack ?? err.message` in
development.  The handler writes no log entry in any branch (the source
contains no logging call). -/
def appOnError (isProduction : Bool) (e : AppErr) : HandlerOutput :=
  match e with
  | .zodError issues => ⟨⟨400, .validation false issues "ZodError"⟩, []⟩
  | .httpException status message cause res =>
    ⟨res.getD ⟨status, .plain false message (some (isFormErrorOfCause cause))⟩, []⟩
  | .other message stack =>
    ⟨⟨500, .plain false
      (if isProduction then "Internal Server Error" else stack.getD message)
      none⟩, []⟩

/-! ## Helper lemmas -/

/-- Well-formedness of a table with respect to a key: the keys of its
rows are pairwise distinct (at most one row per key). -/
@[reducible] def uniqueBy {α β : Type} (key : α → β) (l : List α) : Prop :=
  (l.map key).Nodup

/-- The (target, user) key of a post-upvote row. -/
def postUpvoteKey (v : PostUpvoteRow) : Nat × String := (v.postId, v.userId)

/-- The (target, user) key of a comment-upvote row. -/
def commentUpvoteKey (v : CommentUpvoteRow) : Nat × String := (v.commentId, v.userId)

/-- The spec's uniqueness invariant: at most one upvote row per
(user, target) pair, in both upvote tables. -/
@[reducible] def upvoteUniqueInv (db : DB) : Prop :=
  uniqueBy postUpvoteKey db.postUpvotes ∧ uniqueBy commentUpvoteKey db.commentUpvotes

/-! ## Concrete stores and inputs used by witnesses and counterexamples -/

/-- An authenticated caller used in concrete runs. -/
def exUser : CtxUser := ⟨"u1", "alice"⟩

/-- A small store: one user, one post (id 1), one root comment (id 1). -/
def exDB : DB :=
  ⟨[⟨"u1", "alice", "h"⟩],
   [⟨1, "u1", "Example", none, none, 5, 1, 100⟩],
   [⟨1, "u1", 1, none, "root comment", 101, 0, 0, 2⟩],
   [], [], 2, 1, 1⟩

/-- The comment row of `exDB` with id 1. -/
def exParent : CommentRow := ⟨1, "u1", 1, none, "root comment", 101, 0, 0, 2⟩

/-- A validated pagination input with limit 10, page 1. -/
def exQ : PaginationQuery := ⟨10, 1, .recent, .asc, none, none⟩

/-- A store with 2 posts, 2 root comments of post 1, and 2 replies to
comment 1 — so each of the three listing operations sees a row count of
2. -/
def c1db : DB :=
  ⟨[], [⟨1, "u1", "A", none, none, 0, 2, 1⟩, ⟨2, "u1", "B", none, none, 0, 0, 2⟩],
   [⟨1, "u1", 1, none, "r1", 3, 0, 2, 0⟩, ⟨2, "u1", 1, none, "r2", 4, 0, 0, 0⟩,
    ⟨3, "u1", 1, some 1, "n1", 5, 1, 0, 0⟩, ⟨4, "u1", 1, some 1, "n2", 6, 1, 0, 0⟩],
   [], [], 5, 1, 1⟩

/-- A validated pagination input with limit 2, page 1. -/
def c1q : PaginationQuery := ⟨2, 1, .recent, .asc, none, none⟩

/-- A store in which `exUser` has already upvoted post 1. -/
def c2db : DB :=
  ⟨[⟨"u1", "alice", "h"⟩], [⟨1, "u1", "T", none, none, 5, 0, 100⟩], [],
   [⟨1, 1, "u1", 50⟩], [], 1, 2, 1⟩

/-- The committed state after `exUser` toggles post 1 once in `c2db`. -/
def c2db1 : DB := commitState c2db (postsUpvote c2db exUser 1 200)

/-- The committed state after `exUser` toggles post 1 a second time. -/
def c2db2 : DB := commitState c2db1 (postsUpvote c2db1 exUser 1 201)

/-- A schema-valid store containing a comment-upvote row whose `userId`
is the empty string — the sentinel the comment listings filter by for an
anonymous caller. -/
def c6db : DB :=
  ⟨[⟨"u1", "alice", "h"⟩], [⟨1, "u1", "A", none, none, 0, 1, 1⟩],
   [⟨1, "u1", 1, none, "c", 2, 0, 0, 0⟩], [], [⟨1, 1, "", 3⟩], 2, 1, 2⟩

/-- A generic (non-Zod, non-HTTPException) error with a stack trace. -/
def c9err : AppErr := .other "boom" (some "trace")

/-- An `HTTPException` carrying a pre-built response whose status differs
from the exception's own status. -/
def c9exc : AppErr :=
  .httpException 404 "Post not found" none (some ⟨302, .plain false "moved" none⟩)

theorem mem_insertSorted {α : Type} {le : α → α → Bool} {a x : α} {l : List α} :
    x ∈ insertSorted le a l ↔ x ∈ a :: l := by
  induction l with
  | nil => simp [insertSorted]
  | cons b bs ih =>
    simp only [insertSorted]
    split
    · simp
    · simp only [List.mem_cons] at ih ⊢
      rw [ih]
      tauto

theorem mem_sortRows {α : Type} {le : α → α → Bool} {x : α} {l : List α} :
    x ∈ sortRows le l ↔ x ∈ l := by
  induction l with
  | nil => simp [sortRows]
  | cons a as ih =>
    simp only [sortRows]
    rw [mem_insertSorted]
    simp [ih]

theorem mem_of_mem_paged {α : Type} {le : α → α → Bool} {x : α} {l : List α}
    {o n : Nat} (h : x ∈ ((sortRows le l).drop o).take n) : x ∈ l := by
  exact mem_sortRows.mp (List.mem_of_mem_drop (List.mem_of_mem_take h))

theorem head?_filter_isSome {α : Type} (p : α → Bool) {l : List α} {a : α}
    (ha : a ∈ l) (hp : p a = true) : ∃ b, (l.filter p).head? = some b := by
  have hmem : a ∈ l.filter p := List.mem_filter.mpr ⟨ha, hp⟩
  cases hfp : l.filter p with
  | nil => rw [hfp] at hmem; exact absurd hmem (List.not_mem_nil a)
  | cons b bs => exact ⟨b, rfl⟩

theorem filter_map_head?_isSome {α β : Type} (p : α → Bool) {l : List α} {a : α}
    (f : α → β) (ha : a ∈ l) (hp : p a = true) :
    ∃ b, ((l.filter p).map f).head? = some b := by
  cases hfp : l.filter p with
  | nil =>
    have hmem : a ∈ l.filter p := List.mem_filter.mpr ⟨ha, hp⟩
    rw [hfp] at hmem
    exact absurd hmem (List.not_mem_nil a)
  | cons c cs => exact ⟨f c, rfl⟩

theorem filter_eq_nil_of_head?_none {α : Type} {p : α → Bool} {l : List α}
    (h : (l.filter p).head? = none) : l.filter p = [] :=
  List.head?_eq_none_iff.mp h

/-- A key-unique table has at most one row per key: the filter for one
key is `[]` or a singleton. -/
theorem uniqueBy_filter_shape {α β : Type} [DecidableEq β] {key : α → β}
    {l : List α} (h : uniqueBy key l) (p : α → Bool)
    (hkey : ∀ a b : α, p a = true → p b = true → key a = key b) :
    l.filter p = [] ∨ ∃ v, l.filter p = [v] := by
  induction l with
  | nil => exact Or.inl rfl
  | cons a as ih =>
    have hnd : (as.map key).Nodup ∧ key a ∉ as.map key := by
      have := h
      unfold uniqueBy at this
      simp only [List.map_cons, List.nodup_cons] at this
      exact ⟨this.2, this.1⟩
    have ihr := ih hnd.1
    by_cases hpa : p a = true
    · refine Or.inr ⟨a, ?_⟩
      have hrest : as.filter p = [] := by
        rw [List.filter_eq_nil_iff]
        intro b hb hpb
        have : key b = key a := hkey b a hpb hpa
        exact hnd.2 (this ▸ List.mem_map_of_mem key hb)
      simp [List.filter_cons, hpa, hrest]
    · have : p a = false := by
        cases hv : p a with
        | true => exact absurd hv hpa
        | false => rfl
      rw [List.filter_cons_of_neg (by simp [this])]
      exact ihr

/-- Appending a row whose key is fresh preserves key-uniqueness. -/
theorem uniqueBy_append_fresh {α β : Type} {key : α → β} {l : List α} {x : α}
    (h : uniqueBy key l) (hfresh : ∀ a ∈ l, key a ≠ key x) :
    uniqueBy key (l ++ [x]) := by
  unfold uniqueBy at h ⊢
  rw [List.map_append, List.nodup_append]
  refine ⟨h, List.nodup_singleton _, ?_⟩
  intro b hb
  obtain ⟨a, ha, rfl⟩ := List.mem_map.mp hb
  simp only [List.map_cons, List.map_nil, List.mem_singleton]
  exact hfresh a ha

/-- Removing rows (a WHERE-filtered DELETE) preserves key-uniqueness. -/
theorem uniqueBy_filter {α β : Type} {key : α → β} {l : List α}
    (h : uniqueBy key l) (p : α → Bool) : uniqueBy key (l.filter p) :=
  h.sublist ((List.filter_sublist l).map key)

/-- Deleting by the primary key of a member removes exactly one row when
the table's primary keys are unique. -/
theorem filter_ne_key_length {α β : Type} [DecidableEq β] {key : α → β}
    {l : List α} {v : α} (h : uniqueBy key l) (hv : v ∈ l) :
    (l.filter (fun w => key w ≠ key v)).length + 1 = l.length := by
  induction l with
  | nil => exact absurd hv (List.not_mem_nil v)
  | cons a as ih =>
    have hnd : (as.map key).Nodup ∧ key a ∉ as.map key := by
      have := h
      unfold uniqueBy at this
      simp only [List.map_cons, List.nodup_cons] at this
      exact ⟨this.2, this.1⟩
    rcases List.mem_cons.mp hv with rfl | hvas
    · have hsame : (decide (key v ≠ key v)) = false := by simp
      rw [List.filter_cons_of_neg (by simp)]
      have hall : as.filter (fun w => key w ≠ key v) = as := by
        rw [List.filter_eq_self]
        intro b hb
        simp only [decide_eq_true_eq]
        intro hkb
        exact hnd.2 (hkb ▸ List.mem_map_of_mem key hb)
      rw [hall]
      simp
    · have hne : key a ≠ key v := by
        intro heq
        exact hnd.2 (heq ▸ List.mem_map_of_mem key hvas)
      rw [List.filter_cons_of_pos (by simpa using hne)]
      simp only [List.length_cons]
      rw [← ih hnd.1 hvas]

/-- Membership in the `leftJoinRows` of a match list: either no match
exists and the row is the NULL row, or the row wraps a member. -/
theorem mem_leftJoinRows {β : Type} {ms : List β} {o : Option β}
    (h : o ∈ leftJoinRows ms) : (o = none ∧ ms = []) ∨ ∃ v ∈ ms, o = some v := by
  cases ms with
  | nil =>
    simp only [leftJoinRows, List.mem_singleton] at h
    exact Or.inl ⟨h, rfl⟩
  | cons m ms =>
    simp only [leftJoinRows, List.mem_map] at h
    obtain ⟨v, hv, rfl⟩ := h
    exact Or.inr ⟨v, hv, rfl⟩

theorem bumpPostPoints_id (t : Nat) (d : Int) (p : PostRow) :
    (bumpPostPoints t d p).id = p.id := by
  unfold bumpPostPoints
  split <;> rfl

theorem bumpCommentPoints_id (t : Nat) (d : Int) (c : CommentRow) :
    (bumpCommentPoints t d c).id = c.id := by
  unfold bumpCommentPoints
  split <;> rfl

theorem bumpPostPoints_cancel (t : Nat) (d e : Int) (h : d + e = 0) (p : PostRow) :
    bumpPostPoints t e (bumpPostPoints t d p) = p := by
  unfold bumpPostPoints
  by_cases hid : (p.id == t) = true
  · rw [if_pos hid]
    rw [if_pos (show (({ p with points := p.points + d } : PostRow).id == t) = true from hid)]
    have h2 : p.points + d + e = p.points := by omega
    show ({ p with points := p.points + d + e } : PostRow) = p
    rw [h2]
  · rw [if_neg hid, if_neg hid]

theorem bumpCommentPoints_cancel (t : Nat) (d e : Int) (h : d + e = 0)
    (c : CommentRow) : bumpCommentPoints t e (bumpCommentPoints t d c) = c := by
  unfold bumpCommentPoints
  by_cases hid : (c.id == t) = true
  · rw [if_pos hid]
    rw [if_pos (show (({ c with points := c.points + d } : CommentRow).id == t) = true from hid)]
    have h2 : c.points + d + e = c.points := by omega
    show ({ c with points := c.points + d + e } : CommentRow) = c
    rw [h2]
  · rw [if_neg hid, if_neg hid]

theorem map_bumpPostPoints_cancel (t : Nat) (d e : Int) (h : d + e = 0)
    (l : List PostRow) : (l.map (bumpPostPoints t d)).map (bumpPostPoints t e) = l := by
  rw [List.map_map]
  conv_rhs => rw [← List.map_id l]
  exact List.map_congr_left (fun p _ => bumpPostPoints_cancel t d e h p)

theorem map_bumpCommentPoints_cancel (t : Nat) (d e : Int) (h : d + e = 0)
    (l : List CommentRow) :
    (l.map (bumpCommentPoints t d)).map (bumpCommentPoints t e) = l := by
  rw [List.map_map]
  conv_rhs => rw [← List.map_id l]
  exact List.map_congr_left (fun c _ => bumpCommentPoints_cancel t d e h c)

/-- When the caller has no existing upvote row on a post that exists, the
toggle commits the +1 points update, the freshly inserted upvote row, and
the bumped serial sequence. -/
theorem postsUpvote_insert (db : DB) (user : CtxUser) (t now : Nat)
    (hp : ∃ p ∈ db.posts, p.id = t)
    (h : postPairRows db t user.id = []) :
    ∃ pts, postsUpvote db user t now =
      .ok ({ db with
             posts := db.posts.map (bumpPostPoints t 1)
             postUpvotes := db.postUpvotes ++ [⟨db.nextPostUpvoteId, t, user.id, now⟩]
             nextPostUpvoteId := db.nextPostUpvoteId + 1 }, pts, true) := by
  obtain ⟨p, hpmem, hpid⟩ := hp
  have hpred : ((bumpPostPoints t 1 p).id == t) = true := by
    rw [bumpPostPoints_id]
    simp [hpid]
  obtain ⟨pts, hpts⟩ := filter_map_head?_isSome (fun q : PostRow => q.id == t)
    (fun q : PostRow => q.points)
    (List.mem_map_of_mem (bumpPostPoints t 1) hpmem) hpred
  refine ⟨pts, ?_⟩
  unfold postsUpvote
  rw [h]
  simp only [List.head?_nil, Option.isSome_none, Bool.false_eq_true, if_false]
  rw [hpts]

/-- When the caller has an existing upvote row (the first row the lookup
returns) on a post that exists, the toggle commits the -1 points update
and deletes that row by its id. -/
theorem postsUpvote_delete (db : DB) (user : CtxUser) (t now : Nat)
    (hp : ∃ p ∈ db.posts, p.id = t) {v : PostUpvoteRow}
    (h : (postPairRows db t user.id).head? = some v) :
    ∃ pts, postsUpvote db user t now =
      .ok ({ db with
             posts := db.posts.map (bumpPostPoints t (-1))
             postUpvotes := db.postUpvotes.filter (fun w => w.id != v.id) }, pts, false) := by
  obtain ⟨p, hpmem, hpid⟩ := hp
  have hpred : ((bumpPostPoints t (-1) p).id == t) = true := by
    rw [bumpPostPoints_id]
    simp [hpid]
  obtain ⟨pts, hpts⟩ := filter_map_head?_isSome (fun q : PostRow => q.id == t)
    (fun q : PostRow => q.points)
    (List.mem_map_of_mem (bumpPostPoints t (-1)) hpmem) hpred
  refine ⟨pts, ?_⟩
  unfold postsUpvote
  rw [h]
  simp only [Option.isSome_some, if_true]
  rw [hpts]

/-- Comment-side analogue of `postsUpvote_insert`. -/
theorem commentsUpvote_insert (db : DB) (user : CtxUser) (t now : Nat)
    (hc : ∃ c ∈ db.comments, c.id = t)
    (h : commentPairRows db t user.id = []) :
    ∃ pts, commentsUpvote db user t now =
      .ok ({ db with
             comments := db.comments.map (bumpCommentPoints t 1)
             commentUpvotes := db.commentUpvotes ++ [⟨db.nextCommentUpvoteId, t, user.id, now⟩]
             nextCommentUpvoteId := db.nextCommentUpvoteId + 1 }, pts, true) := by
  obtain ⟨c, hcmem, hcid⟩ := hc
  have hpred : ((bumpCommentPoints t 1 c).id == t) = true := by
    rw [bumpCommentPoints_id]
    simp [hcid]
  obtain ⟨pts, hpts⟩ := filter_map_head?_isSome (fun q : CommentRow => q.id == t)
    (fun q : CommentRow => q.points)
    (List.mem_map_of_mem (bumpCommentPoints t 1) hcmem) hpred
  refine ⟨pts, ?_⟩
  unfold commentsUpvote
  rw [h]
  simp only [List.head?_nil, Option.isSome_none, Bool.false_eq_true, if_false]
  rw [hpts]

/-- Comment-side analogue of `postsUpvote_delete`. -/
theorem commentsUpvote_delete (db : DB) (user : CtxUser) (t now : Nat)
    (hc : ∃ c ∈ db.comments, c.id = t) {v : CommentUpvoteRow}
    (h : (commentPairRows db t user.id).head? = some v) :
    ∃ pts, commentsUpvote db user t now =
      .ok ({ db with
             comments := db.comments.map (bumpCommentPoints t (-1))
             commentUpvotes := db.commentUpvotes.filter (fun w => w.id != v.id) }, pts, false) := by
  obtain ⟨c, hcmem, hcid⟩ := hc
  have hpred : ((bumpCommentPoints t (-1) c).id == t) = true := by
    rw [bumpCommentPoints_id]
    simp [hcid]
  obtain ⟨pts, hpts⟩ := filter_map_head?_isSome (fun q : CommentRow => q.id == t)
    (fun q : CommentRow => q.points)
    (List.mem_map_of_mem (bumpCommentPoints t (-1)) hcmem) hpred
  refine ⟨pts, ?_⟩
  unfold commentsUpvote
  rw [h]
  simp only [Option.isSome_some, if_true]
  rw [hpts]

theorem bumpPostCommentCount_id (t : Nat) (p : PostRow) :
    (bumpPostCommentCount t p).id = p.id := by
  unfold bumpPostCommentCount
  split <;> rfl

theorem bumpCommentCount_id (t : Nat) (c : CommentRow) :
    (bumpCommentCount t c).id = c.id := by
  unfold bumpCommentCount
  split <;> rfl

theorem mem_of_head?_filter {α : Type} {p : α → Bool} {l : List α} {a : α}
    (h : (l.filter p).head? = some a) : a ∈ l ∧ p a = true := by
  cases hf : l.filter p with
  | nil => rw [hf] at h; exact absurd h (by simp)
  | cons b bs =>
    rw [hf] at h
    have hba : b = a := by simpa using h
    subst hba
    have hmem : b ∈ l.filter p := by
      rw [hf]
      exact List.mem_cons_self b bs
    exact ⟨(List.mem_filter.mp hmem).1, (List.mem_filter.mp hmem).2⟩

theorem nat_bne_eq_decide (a b : Nat) : (a != b) = decide (¬ a = b) := by
  by_cases h : a = b <;> simp [h]

/-- DELETE by the primary key of a member row removes exactly one row
from a table with unique primary keys (`post_upvotes`). -/
theorem postUpvotes_delete_length {l : List PostUpvoteRow} {v : PostUpvoteRow}
    (h : uniqueBy PostUpvoteRow.id l) (hv : v ∈ l) :
    (l.filter (fun w => w.id != v.id)).length + 1 = l.length := by
  have hc : l.filter (fun w => w.id != v.id) =
      l.filter (fun w => PostUpvoteRow.id w ≠ PostUpvoteRow.id v) := by
    apply List.filter_congr
    intro a _
    exact nat_bne_eq_decide a.id v.id
  rw [hc]
  exact filter_ne_key_length h hv

/-- DELETE by the primary key of a member row removes exactly one row
from a table with unique primary keys (`comment_upvotes`). -/
theorem commentUpvotes_delete_length {l : List CommentUpvoteRow} {v : CommentUpvoteRow}
    (h : uniqueBy CommentUpvoteRow.id l) (hv : v ∈ l) :
    (l.filter (fun w => w.id != v.id)).length + 1 = l.length := by
  have hc : l.filter (fun w => w.id != v.id) =
      l.filter (fun w => CommentUpvoteRow.id w ≠ CommentUpvoteRow.id v) := by
    apply List.filter_congr
    intro a _
    exact nat_bne_eq_decide a.id v.id
  rw [hc]
  exact filter_ne_key_length h hv

/-- The caller-filtered `commentUpvotes` collection is empty exactly when
the underlying filtered table rows are. -/
theorem commentVoteViews_eq_nil_iff (db : DB) (uidStr : String) (cid : Nat) :
    commentVoteViews db uidStr cid = [] ↔
      db.commentUpvotes.filter (fun v => v.commentId == cid && v.userId == uidStr) = [] := by
  unfold commentVoteViews
  cases hf : db.commentUpvotes.filter (fun v => v.commentId == cid && v.userId == uidStr) with
  | nil => simp
  | cons c cs => simp

theorem mem_postsList_data {db : DB} {user : Option CtxUser} {q : PaginationQuery}
    {r : PostView} (h : r ∈ (postsList db user q).data) :
    ∃ trip ∈ postsJoined db (user.map (fun u => u.id)), r = selectPostRow user trip := by
  unfold postsList at h
  simp only at h
  obtain ⟨trip, htrip, rfl⟩ := List.mem_map.mp h
  have h2 := mem_of_mem_paged htrip
  exact ⟨trip, (List.mem_filter.mp h2).1, rfl⟩

theorem mem_postsJoined {db : DB} {uidOpt : Option String}
    {trip : PostRow × Option UserRow × Option PostUpvoteRow}
    (h : trip ∈ postsJoined db uidOpt) :
    trip.1 ∈ db.posts ∧
    (uidOpt = none → trip.2.2 = none) ∧
    (∀ uid, uidOpt = some uid →
      (trip.2.2 = none ∧
        db.postUpvotes.filter
          (fun v => v.postId == trip.1.id && v.userId == uid) = []) ∨
      (∃ v ∈ db.postUpvotes, v.postId = trip.1.id ∧ v.userId = uid ∧
        trip.2.2 = some v)) := by
  unfold postsJoined at h
  obtain ⟨p, hp, h2⟩ := List.mem_flatMap.mp h
  obtain ⟨uo, _, h3⟩ := List.mem_flatMap.mp h2
  obtain ⟨vo, hvo, rfl⟩ := List.mem_map.mp h3
  refine ⟨hp, ?_, ?_⟩
  · intro hnone
    subst hnone
    simpa using hvo
  · intro uid hsome
    subst hsome
    rcases mem_leftJoinRows hvo with ⟨rfl, hnil⟩ | ⟨v, hvmem, rfl⟩
    · exact Or.inl ⟨rfl, hnil⟩
    · have := List.mem_filter.mp hvmem
      refine Or.inr ⟨v, this.1, ?_, ?_, rfl⟩
      · have := this.2
        simp only [Bool.and_eq_true, beq_iff_eq] at this
        exact this.1
      · have := this.2
        simp only [Bool.and_eq_true, beq_iff_eq] at this
        exact this.2

theorem mem_postsListComments_data {db : DB} {user : Option CtxUser} {pid : Nat}
    {q : PaginationQuery} {ic : Bool} {resp : PaginatedResponse CommentView}
    {r : CommentView} (hr : postsListComments db user pid q ic = .ok resp)
    (h : r ∈ resp.data) :
    ∃ c ∈ db.comments,
      r = selectRootComment db (userIdStr user) q.sortBy q.order
        (if ic then 2 else 0) c := by
  unfold postsListComments at hr
  cases hpe : (db.posts.filter (fun p => p.id == pid)).head? with
  | none => rw [hpe] at hr; exact absurd hr (by simp)
  | some w =>
    rw [hpe] at hr
    simp only [Except.ok.injEq] at hr
    subst hr
    obtain ⟨c, hc, rfl⟩ := List.mem_map.mp h
    have h2 := mem_of_mem_paged hc
    exact ⟨c, (List.mem_filter.mp h2).1, rfl⟩

theorem mem_commentsListReplies_data {db : DB} {user : Option CtxUser} {cid : Nat}
    {q : PaginationQuery} {r : CommentView}
    (h : r ∈ (commentsListReplies db user cid q).data) :
    ∃ c ∈ db.comments, r = selectReplyComment db (userIdStr user) c := by
  unfold commentsListReplies at h
  simp only at h
  obtain ⟨c, hc, rfl⟩ := List.mem_map.mp h
  have h2 := mem_of_mem_paged hc
  exact ⟨c, (List.mem_filter.mp h2).1, rfl⟩

theorem mem_selectRootComment_children {db : DB} {uidStr : String} {sb : SortBy}
    {o : Order} {n : Nat} {c : CommentRow} {ch : ChildCommentView}
    (h : ch ∈ (selectRootComment db uidStr sb o n c).childComments) :
    ∃ k ∈ db.comments, ch = selectChildComment db uidStr k := by
  unfold selectRootComment at h
  simp only at h
  obtain ⟨k, hk, rfl⟩ := List.mem_map.mp h
  have h2 := mem_sortRows.mp (List.mem_of_mem_take hk)
  exact ⟨k, (List.mem_filter.mp h2).1, rfl⟩

/-! ## Claim theorems -/

/-- C1: the claim says every listing operation returns
`totalPages = ceil(count / limit)`.  The code computes
`Math.ceil(count?.count ?? 0 / limit)`, in which `/` binds tighter than
`??`, so `totalPages` is the raw row count.  At the failing input —
2 matching rows, validated limit 2 — all three listing operations
(GET /posts, GET /posts/:id/comments, GET /comments/:id/comments) return
`totalPages = 2` although `ceil(2 / 2) = 1`. -/
theorem C1_totalPages_is_raw_count_at_failing_input :
    (postsList c1db none c1q).pagination.totalPages = 2 ∧
    (postsListComments c1db none 1 c1q false).toOption.map
      (fun resp => resp.pagination.totalPages) = some 2 ∧
    (commentsListReplies c1db none 1 c1q).pagination.totalPages = 2 ∧
    totalPagesSpec 2 2 = 1 := by decide

/-- C9 counterexample: the claim requires any non-Zod, non-HTTPException
failure to be logged server-side, and an HTTPException to be answered
with the exception's own status and message.  The handler logs nothing
(there is no logging call in its source), and an HTTPException carrying a
pre-built `err.res` is answered with that response instead: `c9exc` has
status 404 but is answered with status 302. -/
theorem C9_counterexample :
    (appOnError true c9err).response = ⟨500, .plain false "Internal Server Error" none⟩ ∧
    (appOnError true c9err).logs = [] ∧
    (appOnError true c9exc).response = ⟨302, .plain false "moved" none⟩ := by decide

/-- C9 amended: a ZodError produces HTTP 400 with success:false and the
per-field issue list; an HTTPException returns its pre-built response when
one is attached, and otherwise a response with the exception's status,
success:false, its message as error and isFormError derived from the
cause; any other failure produces HTTP 500 with success:false and a body
that is the fixed string "Internal Server Error" in production and the
stack trace (falling back to the message) in development — and the
handler writes no server-side log in any branch. -/
theorem C9_onError_cases : ∀ (isProd : Bool) (issues : List String) (status : Nat)
    (msg : String) (cause : Option CauseObj) (r : HttpResponse) (m2 : String)
    (stack : String),
    appOnError isProd (.zodError issues) = ⟨⟨400, .validation false issues "ZodError"⟩, []⟩ ∧
    appOnError isProd (.httpException status msg cause none) =
      ⟨⟨status, .plain false msg (some (isFormErrorOfCause cause))⟩, []⟩ ∧
    appOnError isProd (.httpException status msg cause (some r)) = ⟨r, []⟩ ∧
    appOnError true (.other m2 (some stack)) =
      ⟨⟨500, .plain false "Internal Server Error" none⟩, []⟩ ∧
    appOnError false (.other m2 (some stack)) = ⟨⟨500, .plain false stack none⟩, []⟩ ∧
    appOnError true (.other m2 none) = ⟨⟨500, .plain false "Internal Server Error" none⟩, []⟩ ∧
    appOnError false (.other m2 none) = ⟨⟨500, .plain false m2 none⟩, []⟩ := by
  intro isProd issues status msg cause r m2 stack
  exact ⟨rfl, rfl, rfl, rfl, rfl, rfl, rfl⟩

/-- C4: creating a comment under a post id or parent-comment id that
references no existing row fails with HTTP 404 (`Comment not found` /
`Post not found`) and the aborted transaction commits nothing: the
committed state is the unchanged input store. -/
theorem C4_create_comment_not_found_rolls_back (db : DB) (u : CtxUser)
    (cid pid : Nat) (content : String) (now : Nat)
    (hc : ∀ c ∈ db.comments, c.id ≠ cid)
    (hp : ∀ p ∈ db.posts, p.id ≠ pid) :
    (commentsCreate db u cid content now = .error ⟨404, "Comment not found"⟩ ∧
     commitState db (commentsCreate db u cid content now) = db) ∧
    (postsCreateComment db u pid content now = .error ⟨404, "Post not found"⟩ ∧
     commitState db (postsCreateComment db u pid content now) = db) := by
  have h1 : db.comments.filter (fun c => c.id == cid) = [] := by
    rw [List.filter_eq_nil_iff]
    intro c hcm
    simpa using hc c hcm
  have e1 : commentsCreate db u cid content now = .error ⟨404, "Comment not found"⟩ := by
    unfold commentsCreate
    rw [h1]
    rfl
  have h2 : (db.posts.map (bumpPostCommentCount pid)).filter (fun p => p.id == pid) = [] := by
    rw [List.filter_eq_nil_iff]
    intro p hpm
    obtain ⟨p0, hp0, rfl⟩ := List.mem_map.mp hpm
    rw [bumpPostCommentCount_id]
    simpa using hp p0 hp0
  have e2 : postsCreateComment db u pid content now = .error ⟨404, "Post not found"⟩ := by
    simp only [postsCreateComment, h2, List.map_nil, List.head?_nil]
  exact ⟨⟨e1, by rw [e1]; rfl⟩, ⟨e2, by rw [e2]; rfl⟩⟩

/-- C4 witness: in `exDB` neither a comment nor a post with id 9 exists;
both creation operations fail with 404 and commit nothing. -/
theorem C4_witness :
    (∀ c ∈ exDB.comments, c.id ≠ 9) ∧ (∀ p ∈ exDB.posts, p.id ≠ 9) ∧
    ((commentsCreate exDB exUser 9 "x" 500 = .error ⟨404, "Comment not found"⟩ ∧
      commitState exDB (commentsCreate exDB exUser 9 "x" 500) = exDB) ∧
     (postsCreateComment exDB exUser 9 "x" 500 = .error ⟨404, "Post not found"⟩ ∧
      commitState exDB (postsCreateComment exDB exUser 9 "x" 500) = exDB)) :=
  ⟨by decide, by decide,
   C4_create_comment_not_found_rolls_back exDB exUser 9 9 "x" 500 (by decide) (by decide)⟩

/-- C5: toggling an upvote on a target id that references no existing row
fails with HTTP 404 (`Post not found` / `Comment not found`) and the
aborted transaction persists nothing: the committed state is the
unchanged input store (the existence check happens before any upvote row
is inserted or deleted). -/
theorem C5_upvote_not_found_rolls_back (db : DB) (u : CtxUser) (tp tc now : Nat)
    (hp : ∀ p ∈ db.posts, p.id ≠ tp)
    (hc : ∀ c ∈ db.comments, c.id ≠ tc) :
    (postsUpvote db u tp now = .error ⟨404, "Post not found"⟩ ∧
     commitState db (postsUpvote db u tp now) = db) ∧
    (commentsUpvote db u tc now = .error ⟨404, "Comment not found"⟩ ∧
     commitState db (commentsUpvote db u tc now) = db) := by
  have h2 : ∀ d : Int,
      (db.posts.map (bumpPostPoints tp d)).filter (fun p => p.id == tp) = [] := by
    intro d
    rw [List.filter_eq_nil_iff]
    intro p hpm
    obtain ⟨p0, hp0, rfl⟩ := List.mem_map.mp hpm
    rw [bumpPostPoints_id]
    simpa using hp p0 hp0
  have h3 : ∀ d : Int,
      (db.comments.map (bumpCommentPoints tc d)).filter (fun c => c.id == tc) = [] := by
    intro d
    rw [List.filter_eq_nil_iff]
    intro c hcm
    obtain ⟨c0, hc0, rfl⟩ := List.mem_map.mp hcm
    rw [bumpCommentPoints_id]
    simpa using hc c0 hc0
  have e1 : postsUpvote db u tp now = .error ⟨404, "Post not found"⟩ := by
    simp only [postsUpvote, h2, List.map_nil, List.head?_nil]
  have e2 : commentsUpvote db u tc now = .error ⟨404, "Comment not found"⟩ := by
    simp only [commentsUpvote, h3, List.map_nil, List.head?_nil]
  exact ⟨⟨e1, by rw [e1]; rfl⟩, ⟨e2, by rw [e2]; rfl⟩⟩

/-- C5 witness: in `exDB` no post or comment with id 9 exists; both
toggles fail with 404 and commit nothing. -/
theorem C5_witness :
    (∀ p ∈ exDB.posts, p.id ≠ 9) ∧ (∀ c ∈ exDB.comments, c.id ≠ 9) ∧
    ((postsUpvote exDB exUser 9 500 = .error ⟨404, "Post not found"⟩ ∧
      commitState exDB (postsUpvote exDB exUser 9 500) = exDB) ∧
     (commentsUpvote exDB exUser 9 500 = .error ⟨404, "Comment not found"⟩ ∧
      commitState exDB (commentsUpvote exDB exUser 9 500) = exDB)) :=
  ⟨by decide, by decide,
   C5_upvote_not_found_rolls_back exDB exUser 9 9 500 (by decide) (by decide)⟩

/-- C10: `GET /comments/:id/comments` performs no existence check — for
an id that references no comment (in a store whose comments' parent
references are intact, so no row can claim the missing id as parent) it
returns a success response whose data list is empty and whose pagination
is computed from a row count of 0 (hence `totalPages = 0`), while
`GET /posts/:id/comments` fails with HTTP 404 `Post not found` for a
nonexistent post id. -/
theorem C10_replies_listing_skips_existence_check (db : DB) (u : Option CtxUser)
    (cid pid : Nat) (q : PaginationQuery) (ic : Bool)
    (hno : ∀ c ∈ db.comments, c.id ≠ cid)
    (hwf : ∀ c ∈ db.comments, ∀ pc, c.parentCommentId = some pc →
      ∃ k ∈ db.comments, k.id = pc)
    (hnp : ∀ p ∈ db.posts, p.id ≠ pid) :
    (commentsListReplies db u cid q =
      ⟨true, "Comment fetched successfully", [], ⟨q.page, totalPages (some 0) q.limit⟩⟩ ∧
     totalPages (some 0) q.limit = 0) ∧
    postsListComments db u pid q ic = .error ⟨404, "Post not found"⟩ := by
  have hrep : db.comments.filter (fun c => c.parentCommentId == some cid) = [] := by
    rw [List.filter_eq_nil_iff]
    intro c hcm
    simp only [beq_iff_eq, decide_eq_true_eq]
    intro hpc
    obtain ⟨k, hk, hkid⟩ := hwf c hcm cid hpc
    exact hno k hk hkid
  refine ⟨⟨?_, rfl⟩, ?_⟩
  · unfold commentsListReplies
    rw [hrep]
    simp [countDistinctIds, sortRows]
  · have hpf : db.posts.filter (fun p => p.id == pid) = [] := by
      rw [List.filter_eq_nil_iff]
      intro p hpm
      simpa using hnp p hpm
    unfold postsListComments
    rw [hpf]
    rfl

/-- C10 witness: in `exDB` (whose only comment is a root comment) the id
9 references neither a comment nor a post. -/
theorem C10_witness :
    (∀ c ∈ exDB.comments, c.id ≠ 9) ∧
    (∀ c ∈ exDB.comments, ∀ pc, c.parentCommentId = some pc →
      ∃ k ∈ exDB.comments, k.id = pc) ∧
    (∀ p ∈ exDB.posts, p.id ≠ 9) ∧
    ((commentsListReplies exDB (some exUser) 9 exQ =
      ⟨true, "Comment fetched successfully", [], ⟨exQ.page, totalPages (some 0) exQ.limit⟩⟩ ∧
      totalPages (some 0) exQ.limit = 0) ∧
     postsListComments exDB (some exUser) 9 exQ true = .error ⟨404, "Post not found"⟩) :=
  ⟨by decide, by decide, by decide,
   C10_replies_listing_skips_existence_check exDB (some exUser) 9 9 exQ true
     (by decide) (by decide) (by decide)⟩

/-- C3: creating a nested comment under an existing parent comment P (in
a store where P's owning post exists) commits exactly: P's
`commentCount` incremented by 1 (the `bumpCommentCount P.id` map), the
owning post's `commentCount` incremented by 1 (the
`bumpPostCommentCount P.postId` map), and one inserted comment whose
`depth = P.depth + 1`, `parentCommentId = P.id`, `postId = P.postId`;
the response payload carries that comment. -/
theorem C3_nested_comment_depth_and_counters (db : DB) (u : CtxUser) (P : CommentRow)
    (cid : Nat) (content : String) (now : Nat)
    (hparent : (db.comments.filter (fun c => c.id == cid)).head? = some P)
    (hpost : ∃ p ∈ db.posts, p.id = P.postId) :
    commentsCreate db u cid content now =
      .ok ({ db with
             comments := db.comments.map (bumpCommentCount P.id) ++
               [⟨db.nextCommentId, u.id, P.postId, some P.id, content, now,
                 P.depth + 1, 0, 0⟩]
             posts := db.posts.map (bumpPostCommentCount P.postId)
             nextCommentId := db.nextCommentId + 1 },
           ⟨db.nextCommentId, u.id, P.postId, some P.id, content, now,
            P.depth + 1, 0, 0, some ⟨u.id, u.username⟩, [], []⟩) := by
  have hPmem : P ∈ db.comments := (mem_of_head?_filter hparent).1
  have hcc : ((bumpCommentCount P.id P).id == P.id) = true := by
    rw [bumpCommentCount_id]
    simp
  obtain ⟨cc1, h1⟩ := filter_map_head?_isSome (fun c : CommentRow => c.id == P.id)
    (fun c : CommentRow => c.commentCount)
    (List.mem_map_of_mem (bumpCommentCount P.id) hPmem) hcc
  obtain ⟨p0, hp0, hp0id⟩ := hpost
  have hpp : ((bumpPostCommentCount P.postId p0).id == P.postId) = true := by
    rw [bumpPostCommentCount_id]
    simp [hp0id]
  obtain ⟨cc2, h2⟩ := filter_map_head?_isSome (fun p : PostRow => p.id == P.postId)
    (fun p : PostRow => p.commentCount)
    (List.mem_map_of_mem (bumpPostCommentCount P.postId) hp0) hpp
  simp only [commentsCreate, hparent]
  rw [h1, h2]

/-- C3 witness: replying to the root comment of `exDB` inserts a comment
with depth 1 under post 1 and bumps both counters. -/
theorem C3_witness :
    ((exDB.comments.filter (fun c => c.id == 1)).head? = some exParent) ∧
    (∃ p ∈ exDB.posts, p.id = exParent.postId) ∧
    commentsCreate exDB exUser 1 "hello" 500 =
      .ok ({ exDB with
             comments := exDB.comments.map (bumpCommentCount exParent.id) ++
               [⟨exDB.nextCommentId, exUser.id, exParent.postId, some exParent.id,
                 "hello", 500, exParent.depth + 1, 0, 0⟩]
             posts := exDB.posts.map (bumpPostCommentCount exParent.postId)
             nextCommentId := exDB.nextCommentId + 1 },
           ⟨exDB.nextCommentId, exUser.id, exParent.postId, some exParent.id,
            "hello", 500, exParent.depth + 1, 0, 0,
            some ⟨exUser.id, exUser.username⟩, [], []⟩) :=
  ⟨by decide, by decide,
   C3_nested_comment_depth_and_counters exDB exUser exParent 1 "hello" 500
     (by decide) (by decide)⟩

theorem postsUpvote_notfound (db : DB) (u : CtxUser) (t now : Nat)
    (hp : ∀ p ∈ db.posts, p.id ≠ t) :
    postsUpvote db u t now = .error ⟨404, "Post not found"⟩ := by
  have h2 : ∀ d : Int,
      (db.posts.map (bumpPostPoints t d)).filter (fun p => p.id == t) = [] := by
    intro d
    rw [List.filter_eq_nil_iff]
    intro p hpm
    obtain ⟨p0, hp0, rfl⟩ := List.mem_map.mp hpm
    rw [bumpPostPoints_id]
    simpa using hp p0 hp0
  simp only [postsUpvote, h2, List.map_nil, List.head?_nil]

theorem commentsUpvote_notfound (db : DB) (u : CtxUser) (t now : Nat)
    (hc : ∀ c ∈ db.comments, c.id ≠ t) :
    commentsUpvote db u t now = .error ⟨404, "Comment not found"⟩ := by
  have h3 : ∀ d : Int,
      (db.comments.map (bumpCommentPoints t d)).filter (fun c => c.id == t) = [] := by
    intro d
    rw [List.filter_eq_nil_iff]
    intro c hcm
    obtain ⟨c0, hc0, rfl⟩ := List.mem_map.mp hcm
    rw [bumpCommentPoints_id]
    simpa using hc c0 hc0
  simp only [commentsUpvote, h3, List.map_nil, List.head?_nil]

/-- Every possible outcome of `commentsCreate`: parent not found, owning
post not found, or the successful commit. -/
theorem commentsCreate_cases (db : DB) (u : CtxUser) (cid : Nat) (content : String)
    (now : Nat) :
    commentsCreate db u cid content now = .error ⟨404, "Comment not found"⟩ ∨
    commentsCreate db u cid content now = .error ⟨404, "Error creating comment"⟩ ∨
    ∃ P, (db.comments.filter (fun c => c.id == cid)).head? = some P ∧
      commentsCreate db u cid content now =
        .ok ({ db with
               comments := db.comments.map (bumpCommentCount P.id) ++
                 [⟨db.nextCommentId, u.id, P.postId, some P.id, content, now,
                   P.depth + 1, 0, 0⟩]
               posts := db.posts.map (bumpPostCommentCount P.postId)
               nextCommentId := db.nextCommentId + 1 },
             ⟨db.nextCommentId, u.id, P.postId, some P.id, content, now,
              P.depth + 1, 0, 0, some ⟨u.id, u.username⟩, [], []⟩) := by
  cases hf : (db.comments.filter (fun c => c.id == cid)).head? with
  | none =>
    refine Or.inl ?_
    unfold commentsCreate
    rw [hf]
  | some P =>
    have hPmem : P ∈ db.comments := (mem_of_head?_filter hf).1
    have hcc : ((bumpCommentCount P.id P).id == P.id) = true := by
      rw [bumpCommentCount_id]
      simp
    obtain ⟨cc1, h1⟩ := filter_map_head?_isSome (fun c : CommentRow => c.id == P.id)
      (fun c : CommentRow => c.commentCount)
      (List.mem_map_of_mem (bumpCommentCount P.id) hPmem) hcc
    cases h2 : (((db.posts.map (bumpPostCommentCount P.postId)).filter
        (fun p => p.id == P.postId)).map (fun p => p.commentCount)).head? with
    | none =>
      refine Or.inr (Or.inl ?_)
      simp only [commentsCreate, hf]
      rw [h1, h2]
    | some cc2 =>
      refine Or.inr (Or.inr ⟨P, rfl, ?_⟩)
      simp only [commentsCreate, hf]
      rw [h1, h2]

/-- Every possible outcome of `postsCreateComment`: post not found or
the successful commit. -/
theorem postsCreateComment_cases (db : DB) (u : CtxUser) (pid : Nat)
    (content : String) (now : Nat) :
    postsCreateComment db u pid content now = .error ⟨404, "Post not found"⟩ ∨
    postsCreateComment db u pid content now =
      .ok ({ db with
             posts := db.posts.map (bumpPostCommentCount pid)
             comments := db.comments ++
               [⟨db.nextCommentId, u.id, pid, none, content, now, 0, 0, 0⟩]
             nextCommentId := db.nextCommentId + 1 },
           ⟨db.nextCommentId, u.id, pid, none, content, now, 0, 0, 0,
            some ⟨u.id, u.username⟩, [], []⟩) := by
  cases h2 : (((db.posts.map (bumpPostCommentCount pid)).filter
      (fun p => p.id == pid)).map (fun p => p.commentCount)).head? with
  | none =>
    refine Or.inl ?_
    simp only [postsCreateComment]
    rw [h2]
  | some cc =>
    refine Or.inr ?_
    simp only [postsCreateComment]
    rw [h2]

/-- C7: the uniqueness invariant — at most one upvote row per
(user, target) pair in each upvote table — holds in the empty initial
store and is preserved by the committed state of every post / comment
upvote toggle, and trivially by the comment-creation operations, which do
not touch the upvote tables. -/
theorem C7_upvote_pair_uniqueness_invariant :
    upvoteUniqueInv initDB ∧
    (∀ db u t now, upvoteUniqueInv db →
      upvoteUniqueInv (commitState db (postsUpvote db u t now))) ∧
    (∀ db u t now, upvoteUniqueInv db →
      upvoteUniqueInv (commitState db (commentsUpvote db u t now))) ∧
    (∀ db u cid content now, upvoteUniqueInv db →
      upvoteUniqueInv (commitState db (commentsCreate db u cid content now))) ∧
    (∀ db u pid content now, upvoteUniqueInv db →
      upvoteUniqueInv (commitState db (postsCreateComment db u pid content now))) := by
  refine ⟨⟨List.nodup_nil, List.nodup_nil⟩, ?_, ?_, ?_, ?_⟩
  · intro db u t now h
    by_cases hex : ∃ p ∈ db.posts, p.id = t
    · cases hx : (postPairRows db t u.id).head? with
      | none =>
        have hnil : postPairRows db t u.id = [] := List.head?_eq_none_iff.mp hx
        obtain ⟨pts, e⟩ := postsUpvote_insert db u t now hex hnil
        rw [e]
        refine ⟨uniqueBy_append_fresh h.1 ?_, h.2⟩
        intro a ha hkey
        have ha1 : a.postId = t := congrArg Prod.fst hkey
        have ha2 : a.userId = u.id := congrArg Prod.snd hkey
        have hpred : (a.postId == t && a.userId == u.id) = true := by
          simp [ha1, ha2]
        have hmem : a ∈ postPairRows db t u.id := List.mem_filter.mpr ⟨ha, hpred⟩
        rw [hnil] at hmem
        exact absurd hmem (List.not_mem_nil a)
      | some v =>
        obtain ⟨pts, e⟩ := postsUpvote_delete db u t now hex hx
        rw [e]
        exact ⟨uniqueBy_filter h.1 _, h.2⟩
    · have hp : ∀ p ∈ db.posts, p.id ≠ t := fun p hpm heq => hex ⟨p, hpm, heq⟩
      rw [postsUpvote_notfound db u t now hp]
      exact h
  · intro db u t now h
    by_cases hex : ∃ c ∈ db.comments, c.id = t
    · cases hx : (commentPairRows db t u.id).head? with
      | none =>
        have hnil : commentPairRows db t u.id = [] := List.head?_eq_none_iff.mp hx
        obtain ⟨pts, e⟩ := commentsUpvote_insert db u t now hex hnil
        rw [e]
        refine ⟨h.1, uniqueBy_append_fresh h.2 ?_⟩
        intro a ha hkey
        have ha1 : a.commentId = t := congrArg Prod.fst hkey
        have ha2 : a.userId = u.id := congrArg Prod.snd hkey
        have hpred : (a.commentId == t && a.userId == u.id) = true := by
          simp [ha1, ha2]
        have hmem : a ∈ commentPairRows db t u.id := List.mem_filter.mpr ⟨ha, hpred⟩
        rw [hnil] at hmem
        exact absurd hmem (List.not_mem_nil a)
      | some v =>
        obtain ⟨pts, e⟩ := commentsUpvote_delete db u t now hex hx
        rw [e]
        exact ⟨h.1, uniqueBy_filter h.2 _⟩
    · have hc : ∀ c ∈ db.comments, c.id ≠ t := fun c hcm heq => hex ⟨c, hcm, heq⟩
      rw [commentsUpvote_notfound db u t now hc]
      exact h
  · intro db u cid content now h
    rcases commentsCreate_cases db u cid content now with hcc | hcc | ⟨P, _, hcc⟩ <;>
      rw [hcc] <;> exact h
  · intro db u pid content now h
    rcases postsCreateComment_cases db u pid content now with hcc | hcc <;>
      rw [hcc] <;> exact h

/-- C7 witness: the invariant holds in the empty store and after each
operation runs once on the concrete store `exDB`. -/
theorem C7_witness :
    upvoteUniqueInv initDB ∧
    upvoteUniqueInv (commitState exDB (postsUpvote exDB exUser 1 500)) ∧
    upvoteUniqueInv (commitState exDB (commentsUpvote exDB exUser 1 500)) ∧
    upvoteUniqueInv (commitState exDB (commentsCreate exDB exUser 1 "w" 500)) ∧
    upvoteUniqueInv (commitState exDB (postsCreateComment exDB exUser 1 "w" 500)) :=
  ⟨C7_upvote_pair_uniqueness_invariant.1,
   C7_upvote_pair_uniqueness_invariant.2.1 exDB exUser 1 500 (by decide),
   C7_upvote_pair_uniqueness_invariant.2.2.1 exDB exUser 1 500 (by decide),
   C7_upvote_pair_uniqueness_invariant.2.2.2.1 exDB exUser 1 "w" 500 (by decide),
   C7_upvote_pair_uniqueness_invariant.2.2.2.2 exDB exUser 1 "w" 500 (by decide)⟩

/-- C8: a successful upvote toggle on an existing target commits exactly
one effect pair — the `points` update of the targeted row (the
`bumpPostPoints` / `bumpCommentPoints` map, +1 when inserting, -1 when
deleting, every other row and every other field untouched by the map)
and one row appended to or exactly one row deleted from the matching
upvote table — and leaves every other table of the store unchanged. -/
theorem C8_upvote_toggle_frame (db : DB) (u : CtxUser) (tp tc now : Nat)
    (hp : ∃ p ∈ db.posts, p.id = tp)
    (hc : ∃ c ∈ db.comments, c.id = tc)
    (hpk : uniqueBy PostUpvoteRow.id db.postUpvotes)
    (hck : uniqueBy CommentUpvoteRow.id db.commentUpvotes) :
    (∀ db2 pts b, postsUpvote db u tp now = .ok (db2, pts, b) →
      db2.users = db.users ∧ db2.comments = db.comments ∧
      db2.commentUpvotes = db.commentUpvotes ∧
      ((db2.posts = db.posts.map (bumpPostPoints tp 1) ∧
        db2.postUpvotes = db.postUpvotes ++ [⟨db.nextPostUpvoteId, tp, u.id, now⟩] ∧
        db2.postUpvotes.length = db.postUpvotes.length + 1) ∨
       (∃ v ∈ db.postUpvotes, v.postId = tp ∧ v.userId = u.id ∧
        db2.posts = db.posts.map (bumpPostPoints tp (-1)) ∧
        db2.postUpvotes = db.postUpvotes.filter (fun w => w.id != v.id) ∧
        db2.postUpvotes.length + 1 = db.postUpvotes.length))) ∧
    (∀ db2 pts b, commentsUpvote db u tc now = .ok (db2, pts, b) →
      db2.users = db.users ∧ db2.posts = db.posts ∧
      db2.postUpvotes = db.postUpvotes ∧
      ((db2.comments = db.comments.map (bumpCommentPoints tc 1) ∧
        db2.commentUpvotes = db.commentUpvotes ++ [⟨db.nextCommentUpvoteId, tc, u.id, now⟩] ∧
        db2.commentUpvotes.length = db.commentUpvotes.length + 1) ∨
       (∃ v ∈ db.commentUpvotes, v.commentId = tc ∧ v.userId = u.id ∧
        db2.comments = db.comments.map (bumpCommentPoints tc (-1)) ∧
        db2.commentUpvotes = db.commentUpvotes.filter (fun w => w.id != v.id) ∧
        db2.commentUpvotes.length + 1 = db.commentUpvotes.length))) := by
  constructor
  · intro db2 pts b heq
    cases hx : (postPairRows db tp u.id).head? with
    | none =>
      obtain ⟨pts2, e⟩ := postsUpvote_insert db u tp now hp (List.head?_eq_none_iff.mp hx)
      have h2 := e.symm.trans heq
      simp only [Except.ok.injEq, Prod.mk.injEq] at h2
      obtain ⟨hdb, -, -⟩ := h2
      subst hdb
      refine ⟨rfl, rfl, rfl, Or.inl ⟨rfl, rfl, by simp⟩⟩
    | some v =>
      obtain ⟨pts2, e⟩ := postsUpvote_delete db u tp now hp hx
      have hx2 : ((db.postUpvotes.filter
          (fun w => w.postId == tp && w.userId == u.id)).head?) = some v := hx
      obtain ⟨hvmem, hvpred⟩ := mem_of_head?_filter hx2
      simp only [Bool.and_eq_true, beq_iff_eq] at hvpred
      have h2 := e.symm.trans heq
      simp only [Except.ok.injEq, Prod.mk.injEq] at h2
      obtain ⟨hdb, -, -⟩ := h2
      subst hdb
      exact ⟨rfl, rfl, rfl,
        Or.inr ⟨v, hvmem, hvpred.1, hvpred.2, rfl, rfl,
          postUpvotes_delete_length hpk hvmem⟩⟩
  · intro db2 pts b heq
    cases hx : (commentPairRows db tc u.id).head? with
    | none =>
      obtain ⟨pts2, e⟩ := commentsUpvote_insert db u tc now hc (List.head?_eq_none_iff.mp hx)
      have h2 := e.symm.trans heq
      simp only [Except.ok.injEq, Prod.mk.injEq] at h2
      obtain ⟨hdb, -, -⟩ := h2
      subst hdb
      refine ⟨rfl, rfl, rfl, Or.inl ⟨rfl, rfl, by simp⟩⟩
    | some v =>
      obtain ⟨pts2, e⟩ := commentsUpvote_delete db u tc now hc hx
      have hx2 : ((db.commentUpvotes.filter
          (fun w => w.commentId == tc && w.userId == u.id)).head?) = some v := hx
      obtain ⟨hvmem, hvpred⟩ := mem_of_head?_filter hx2
      simp only [Bool.and_eq_true, beq_iff_eq] at hvpred
      have h2 := e.symm.trans heq
      simp only [Except.ok.injEq, Prod.mk.injEq] at h2
      obtain ⟨hdb, -, -⟩ := h2
      subst hdb
      exact ⟨rfl, rfl, rfl,
        Or.inr ⟨v, hvmem, hvpred.1, hvpred.2, rfl, rfl,
          commentUpvotes_delete_length hck hvmem⟩⟩

/-- C8 witness: toggling post 1 and comment 1 of `exDB` (neither yet
upvoted by the caller) commits exactly the insert-branch frame. -/
theorem C8_witness :
    (∃ p ∈ exDB.posts, p.id = 1) ∧ (∃ c ∈ exDB.comments, c.id = 1) ∧
    uniqueBy PostUpvoteRow.id exDB.postUpvotes ∧
    uniqueBy CommentUpvoteRow.id exDB.commentUpvotes ∧
    (({ exDB with
        posts := exDB.posts.map (bumpPostPoints 1 1)
        postUpvotes := exDB.postUpvotes ++ [⟨exDB.nextPostUpvoteId, 1, exUser.id, 500⟩]
        nextPostUpvoteId := exDB.nextPostUpvoteId + 1 } : DB).users = exDB.users ∧
     ({ exDB with
        posts := exDB.posts.map (bumpPostPoints 1 1)
        postUpvotes := exDB.postUpvotes ++ [⟨exDB.nextPostUpvoteId, 1, exUser.id, 500⟩]
        nextPostUpvoteId := exDB.nextPostUpvoteId + 1 } : DB).comments = exDB.comments ∧
     ({ exDB with
        posts := exDB.posts.map (bumpPostPoints 1 1)
        postUpvotes := exDB.postUpvotes ++ [⟨exDB.nextPostUpvoteId, 1, exUser.id, 500⟩]
        nextPostUpvoteId := exDB.nextPostUpvoteId + 1 } : DB).commentUpvotes = exDB.commentUpvotes ∧
     ((({ exDB with
          posts := exDB.posts.map (bumpPostPoints 1 1)
          postUpvotes := exDB.postUpvotes ++ [⟨exDB.nextPostUpvoteId, 1, exUser.id, 500⟩]
          nextPostUpvoteId := exDB.nextPostUpvoteId + 1 } : DB).posts =
            exDB.posts.map (bumpPostPoints 1 1) ∧
       ({ exDB with
          posts := exDB.posts.map (bumpPostPoints 1 1)
          postUpvotes := exDB.postUpvotes ++ [⟨exDB.nextPostUpvoteId, 1, exUser.id, 500⟩]
          nextPostUpvoteId := exDB.nextPostUpvoteId + 1 } : DB).postUpvotes =
            exDB.postUpvotes ++ [⟨exDB.nextPostUpvoteId, 1, exUser.id, 500⟩] ∧
       ({ exDB with
          posts := exDB.posts.map (bumpPostPoints 1 1)
          postUpvotes := exDB.postUpvotes ++ [⟨exDB.nextPostUpvoteId, 1, exUser.id, 500⟩]
          nextPostUpvoteId := exDB.nextPostUpvoteId + 1 } : DB).postUpvotes.length =
            exDB.postUpvotes.length + 1) ∨
      (∃ v ∈ exDB.postUpvotes, v.postId = 1 ∧ v.userId = exUser.id ∧
       ({ exDB with
          posts := exDB.posts.map (bumpPostPoints 1 1)
          postUpvotes := exDB.postUpvotes ++ [⟨exDB.nextPostUpvoteId, 1, exUser.id, 500⟩]
          nextPostUpvoteId := exDB.nextPostUpvoteId + 1 } : DB).posts =
            exDB.posts.map (bumpPostPoints 1 (-1)) ∧
       ({ exDB with
          posts := exDB.posts.map (bumpPostPoints 1 1)
          postUpvotes := exDB.postUpvotes ++ [⟨exDB.nextPostUpvoteId, 1, exUser.id, 500⟩]
          nextPostUpvoteId := exDB.nextPostUpvoteId + 1 } : DB).postUpvotes =
            exDB.postUpvotes.filter (fun w => w.id != v.id) ∧
       ({ exDB with
          posts := exDB.posts.map (bumpPostPoints 1 1)
          postUpvotes := exDB.postUpvotes ++ [⟨exDB.nextPostUpvoteId, 1, exUser.id, 500⟩]
          nextPostUpvoteId := exDB.nextPostUpvoteId + 1 } : DB).postUpvotes.length + 1 =
            exDB.postUpvotes.length))) :=
  ⟨by decide, by decide, by decide, by decide,
   (C8_upvote_toggle_frame exDB exUser 1 1 500 (by decide) (by decide)
     (by decide) (by decide)).1
     { exDB with
       posts := exDB.posts.map (bumpPostPoints 1 1)
       postUpvotes := exDB.postUpvotes ++ [⟨exDB.nextPostUpvoteId, 1, exUser.id, 500⟩]
       nextPostUpvoteId := exDB.nextPostUpvoteId + 1 } 6 true (by rfl)⟩


/-- C2 counterexample: in `c2db` the caller has already upvoted post 1.
Two successful sequential toggles return the points to the original value
but leave an upvote row for the (post 1, caller) pair — the second toggle
re-inserts one — refuting the claim that a double toggle always leaves no
upvote row for the pair. -/
theorem C2_counterexample :
    postsUpvote c2db exUser 1 200 = .ok (c2db1, 4, false) ∧
    postsUpvote c2db1 exUser 1 201 = .ok (c2db2, 5, true) ∧
    c2db2.posts = c2db.posts ∧
    postPairRows c2db2 1 exUser.id ≠ [] :=
  ⟨by rfl, by rfl, by decide, by decide⟩

/-- C2 amended: in a store satisfying the pair-uniqueness invariant,
toggling an existing target twice in sequence restores the whole
posts/comments table (in particular the target's points counter) and
restores the presence-or-absence of the (target, user) upvote row to its
initial state — in particular it leaves no row exactly when none existed
initially. -/
theorem C2_double_toggle_restores (db : DB) (u : CtxUser) (tp tc now1 now2 : Nat)
    (hpu : uniqueBy postUpvoteKey db.postUpvotes)
    (hcu : uniqueBy commentUpvoteKey db.commentUpvotes)
    (hp : ∃ p ∈ db.posts, p.id = tp)
    (hc : ∃ c ∈ db.comments, c.id = tc) :
    (∃ db1 r1 db2 r2,
      postsUpvote db u tp now1 = .ok (db1, r1) ∧
      postsUpvote db1 u tp now2 = .ok (db2, r2) ∧
      db2.posts = db.posts ∧
      (postPairRows db2 tp u.id = [] ↔ postPairRows db tp u.id = [])) ∧
    (∃ db1 r1 db2 r2,
      commentsUpvote db u tc now1 = .ok (db1, r1) ∧
      commentsUpvote db1 u tc now2 = .ok (db2, r2) ∧
      db2.comments = db.comments ∧
      (commentPairRows db2 tc u.id = [] ↔ commentPairRows db tc u.id = [])) := by
  constructor
  · have hkey : ∀ a b : PostUpvoteRow,
        (a.postId == tp && a.userId == u.id) = true →
        (b.postId == tp && b.userId == u.id) = true →
        postUpvoteKey a = postUpvoteKey b := by
      intro a b hpa hpb
      simp only [Bool.and_eq_true, beq_iff_eq] at hpa hpb
      unfold postUpvoteKey
      rw [hpa.1, hpa.2, hpb.1, hpb.2]
    obtain ⟨p0, hp0, hp0id⟩ := hp
    rcases uniqueBy_filter_shape hpu
        (fun v => v.postId == tp && v.userId == u.id) hkey with hnil | ⟨v, hone⟩
    · -- no initial upvote row for the pair: the toggles insert then delete
      have hnil' : postPairRows db tp u.id = [] := hnil
      obtain ⟨pts1, e1⟩ := postsUpvote_insert db u tp now1 ⟨p0, hp0, hp0id⟩ hnil'
      have hp1 : ∃ q ∈ (db.posts.map (bumpPostPoints tp 1)), q.id = tp := by
        refine ⟨bumpPostPoints tp 1 p0, List.mem_map_of_mem (bumpPostPoints tp 1) hp0, ?_⟩
        rw [bumpPostPoints_id]
        exact hp0id
      have hrows1 : (db.postUpvotes ++
          [(⟨db.nextPostUpvoteId, tp, u.id, now1⟩ : PostUpvoteRow)]).filter
          (fun v => v.postId == tp && v.userId == u.id) =
          [⟨db.nextPostUpvoteId, tp, u.id, now1⟩] := by
        rw [List.filter_append, hnil]
        simp
      have hx1 : (postPairRows ({ db with
          posts := db.posts.map (bumpPostPoints tp 1)
          postUpvotes := db.postUpvotes ++ [⟨db.nextPostUpvoteId, tp, u.id, now1⟩]
          nextPostUpvoteId := db.nextPostUpvoteId + 1 } : DB) tp u.id).head? =
          some ⟨db.nextPostUpvoteId, tp, u.id, now1⟩ := by
        show ((db.postUpvotes ++
          [(⟨db.nextPostUpvoteId, tp, u.id, now1⟩ : PostUpvoteRow)]).filter
          (fun v => v.postId == tp && v.userId == u.id)).head? = _
        rw [hrows1]
        rfl
      obtain ⟨pts2, e2⟩ := postsUpvote_delete _ u tp now2 hp1 hx1
      have hzA : ((db.postUpvotes ++
          [(⟨db.nextPostUpvoteId, tp, u.id, now1⟩ : PostUpvoteRow)]).filter
          (fun w => w.id != (⟨db.nextPostUpvoteId, tp, u.id, now1⟩ : PostUpvoteRow).id)).filter
          (fun v => v.postId == tp && v.userId == u.id) = [] := by
        rw [List.filter_eq_nil_iff]
        intro w hw
        have hw1 := List.mem_filter.mp hw
        rcases List.mem_append.mp hw1.1 with hwl | hwr
        · have := List.filter_eq_nil_iff.mp hnil w hwl
          simpa using this
        · have hwv : w = ⟨db.nextPostUpvoteId, tp, u.id, now1⟩ := by simpa using hwr
          have hbad := hw1.2
          rw [hwv] at hbad
          simp at hbad
      refine ⟨_, _, _, _, e1, e2, ?_, ?_⟩
      · show (db.posts.map (bumpPostPoints tp 1)).map (bumpPostPoints tp (-1)) = db.posts
        exact map_bumpPostPoints_cancel tp 1 (-1) (by decide) db.posts
      · show ((db.postUpvotes ++
          [(⟨db.nextPostUpvoteId, tp, u.id, now1⟩ : PostUpvoteRow)]).filter
          (fun w => w.id != (⟨db.nextPostUpvoteId, tp, u.id, now1⟩ : PostUpvoteRow).id)).filter
          (fun v => v.postId == tp && v.userId == u.id) = [] ↔
          db.postUpvotes.filter (fun v => v.postId == tp && v.userId == u.id) = []
        rw [hzA, hnil]
    · -- an initial upvote row for the pair exists: delete then re-insert
      have hx : (postPairRows db tp u.id).head? = some v := by
        show (db.postUpvotes.filter
          (fun v => v.postId == tp && v.userId == u.id)).head? = some v
        rw [hone]
        rfl
      obtain ⟨pts1, e1⟩ := postsUpvote_delete db u tp now1 ⟨p0, hp0, hp0id⟩ hx
      have hp1 : ∃ q ∈ (db.posts.map (bumpPostPoints tp (-1))), q.id = tp := by
        refine ⟨bumpPostPoints tp (-1) p0, List.mem_map_of_mem (bumpPostPoints tp (-1)) hp0, ?_⟩
        rw [bumpPostPoints_id]
        exact hp0id
      have hnil1 : (db.postUpvotes.filter (fun w => w.id != v.id)).filter
          (fun v0 => v0.postId == tp && v0.userId == u.id) = [] := by
        rw [List.filter_eq_nil_iff]
        intro w hw
        have hw1 := List.mem_filter.mp hw
        intro hpredw
        have hwf : w ∈ db.postUpvotes.filter
            (fun v0 => v0.postId == tp && v0.userId == u.id) :=
          List.mem_filter.mpr ⟨hw1.1, hpredw⟩
        rw [hone] at hwf
        have hwv : w = v := by simpa using hwf
        have hbad := hw1.2
        rw [hwv] at hbad
        simp at hbad
      obtain ⟨pts2, e2⟩ := postsUpvote_insert ({ db with
          posts := db.posts.map (bumpPostPoints tp (-1))
          postUpvotes := db.postUpvotes.filter (fun w => w.id != v.id) } : DB)
        u tp now2 hp1 hnil1
      have h2rows : ((db.postUpvotes.filter (fun w => w.id != v.id)) ++
          [(⟨db.nextPostUpvoteId, tp, u.id, now2⟩ : PostUpvoteRow)]).filter
          (fun v0 => v0.postId == tp && v0.userId == u.id) =
          [⟨db.nextPostUpvoteId, tp, u.id, now2⟩] := by
        rw [List.filter_append, hnil1]
        simp
      refine ⟨_, _, _, _, e1, e2, ?_, ?_⟩
      · show (db.posts.map (bumpPostPoints tp (-1))).map (bumpPostPoints tp 1) = db.posts
        exact map_bumpPostPoints_cancel tp (-1) 1 (by decide) db.posts
      · show ((db.postUpvotes.filter (fun w => w.id != v.id)) ++
          [(⟨db.nextPostUpvoteId, tp, u.id, now2⟩ : PostUpvoteRow)]).filter
          (fun v0 => v0.postId == tp && v0.userId == u.id) = [] ↔
          db.postUpvotes.filter (fun v => v.postId == tp && v.userId == u.id) = []
        rw [h2rows, hone]
        simp
  · have hkey : ∀ a b : CommentUpvoteRow,
        (a.commentId == tc && a.userId == u.id) = true →
        (b.commentId == tc && b.userId == u.id) = true →
        commentUpvoteKey a = commentUpvoteKey b := by
      intro a b hpa hpb
      simp only [Bool.and_eq_true, beq_iff_eq] at hpa hpb
      unfold commentUpvoteKey
      rw [hpa.1, hpa.2, hpb.1, hpb.2]
    obtain ⟨c0, hc0, hc0id⟩ := hc
    rcases uniqueBy_filter_shape hcu
        (fun v => v.commentId == tc && v.userId == u.id) hkey with hnil | ⟨v, hone⟩
    · have hnil' : commentPairRows db tc u.id = [] := hnil
      obtain ⟨pts1, e1⟩ := commentsUpvote_insert db u tc now1 ⟨c0, hc0, hc0id⟩ hnil'
      have hc1 : ∃ q ∈ (db.comments.map (bumpCommentPoints tc 1)), q.id = tc := by
        refine ⟨bumpCommentPoints tc 1 c0, List.mem_map_of_mem (bumpCommentPoints tc 1) hc0, ?_⟩
        rw [bumpCommentPoints_id]
        exact hc0id
      have hrows1 : (db.commentUpvotes ++
          [(⟨db.nextCommentUpvoteId, tc, u.id, now1⟩ : CommentUpvoteRow)]).filter
          (fun v => v.commentId == tc && v.userId == u.id) =
          [⟨db.nextCommentUpvoteId, tc, u.id, now1⟩] := by
        rw [List.filter_append, hnil]
        simp
      have hx1 : (commentPairRows ({ db with
          comments := db.comments.map (bumpCommentPoints tc 1)
          commentUpvotes := db.commentUpvotes ++ [⟨db.nextCommentUpvoteId, tc, u.id, now1⟩]
          nextCommentUpvoteId := db.nextCommentUpvoteId + 1 } : DB) tc u.id).head? =
          some ⟨db.nextCommentUpvoteId, tc, u.id, now1⟩ := by
        show ((db.commentUpvotes ++
          [(⟨db.nextCommentUpvoteId, tc, u.id, now1⟩ : CommentUpvoteRow)]).filter
          (fun v => v.commentId == tc && v.userId == u.id)).head? = _
        rw [hrows1]
        rfl
      obtain ⟨pts2, e2⟩ := commentsUpvote_delete _ u tc now2 hc1 hx1
      have hzA : ((db.commentUpvotes ++
          [(⟨db.nextCommentUpvoteId, tc, u.id, now1⟩ : CommentUpvoteRow)]).filter
          (fun w => w.id != (⟨db.nextCommentUpvoteId, tc, u.id, now1⟩ : CommentUpvoteRow).id)).filter
          (fun v => v.commentId == tc && v.userId == u.id) = [] := by
        rw [List.filter_eq_nil_iff]
        intro w hw
        have hw1 := List.mem_filter.mp hw
        rcases List.mem_append.mp hw1.1 with hwl | hwr
        · have := List.filter_eq_nil_iff.mp hnil w hwl
          simpa using this
        · have hwv : w = ⟨db.nextCommentUpvoteId, tc, u.id, now1⟩ := by simpa using hwr
          have hbad := hw1.2
          rw [hwv] at hbad
          simp at hbad
      refine ⟨_, _, _, _, e1, e2, ?_, ?_⟩
      · show (db.comments.map (bumpCommentPoints tc 1)).map (bumpCommentPoints tc (-1)) = db.comments
        exact map_bumpCommentPoints_cancel tc 1 (-1) (by decide) db.comments
      · show ((db.commentUpvotes ++
          [(⟨db.nextCommentUpvoteId, tc, u.id, now1⟩ : CommentUpvoteRow)]).filter
          (fun w => w.id != (⟨db.nextCommentUpvoteId, tc, u.id, now1⟩ : CommentUpvoteRow).id)).filter
          (fun v => v.commentId == tc && v.userId == u.id) = [] ↔
          db.commentUpvotes.filter (fun v => v.commentId == tc && v.userId == u.id) = []
        rw [hzA, hnil]
    · have hx : (commentPairRows db tc u.id).head? = some v := by
        show (db.commentUpvotes.filter
          (fun v => v.commentId == tc && v.userId == u.id)).head? = some v
        rw [hone]
        rfl
      obtain ⟨pts1, e1⟩ := commentsUpvote_delete db u tc now1 ⟨c0, hc0, hc0id⟩ hx
      have hc1 : ∃ q ∈ (db.comments.map (bumpCommentPoints tc (-1))), q.id = tc := by
        refine ⟨bumpCommentPoints tc (-1) c0, List.mem_map_of_mem (bumpCommentPoints tc (-1)) hc0, ?_⟩
        rw [bumpCommentPoints_id]
        exact hc0id
      have hnil1 : (db.commentUpvotes.filter (fun w => w.id != v.id)).filter
          (fun v0 => v0.commentId == tc && v0.userId == u.id) = [] := by
        rw [List.filter_eq_nil_iff]
        intro w hw
        have hw1 := List.mem_filter.mp hw
        intro hpredw
        have hwf : w ∈ db.commentUpvotes.filter
            (fun v0 => v0.commentId == tc && v0.userId == u.id) :=
          List.mem_filter.mpr ⟨hw1.1, hpredw⟩
        rw [hone] at hwf
        have hwv : w = v := by simpa using hwf
        have hbad := hw1.2
        rw [hwv] at hbad
        simp at hbad
      obtain ⟨pts2, e2⟩ := commentsUpvote_insert ({ db with
          comments := db.comments.map (bumpCommentPoints tc (-1))
          commentUpvotes := db.commentUpvotes.filter (fun w => w.id != v.id) } : DB)
        u tc now2 hc1 hnil1
      have h2rows : ((db.commentUpvotes.filter (fun w => w.id != v.id)) ++
          [(⟨db.nextCommentUpvoteId, tc, u.id, now2⟩ : CommentUpvoteRow)]).filter
          (fun v0 => v0.commentId == tc && v0.userId == u.id) =
          [⟨db.nextCommentUpvoteId, tc, u.id, now2⟩] := by
        rw [List.filter_append, hnil1]
        simp
      refine ⟨_, _, _, _, e1, e2, ?_, ?_⟩
      · show (db.comments.map (bumpCommentPoints tc (-1))).map (bumpCommentPoints tc 1) = db.comments
        exact map_bumpCommentPoints_cancel tc (-1) 1 (by decide) db.comments
      · show ((db.commentUpvotes.filter (fun w => w.id != v.id)) ++
          [(⟨db.nextCommentUpvoteId, tc, u.id, now2⟩ : CommentUpvoteRow)]).filter
          (fun v0 => v0.commentId == tc && v0.userId == u.id) = [] ↔
          db.commentUpvotes.filter (fun v => v.commentId == tc && v.userId == u.id) = []
        rw [h2rows, hone]
        simp

/-- C2 witness: double-toggling post 1 and comment 1 of `exDB` (no prior
upvotes) restores the store's posts/comments tables and the absence of
the pair rows. -/
theorem C2_witness :
    uniqueBy postUpvoteKey exDB.postUpvotes ∧
    uniqueBy commentUpvoteKey exDB.commentUpvotes ∧
    (∃ p ∈ exDB.posts, p.id = 1) ∧ (∃ c ∈ exDB.comments, c.id = 1) ∧
    ((∃ db1 r1 db2 r2,
        postsUpvote exDB exUser 1 200 = .ok (db1, r1) ∧
        postsUpvote db1 exUser 1 201 = .ok (db2, r2) ∧
        db2.posts = exDB.posts ∧
        (postPairRows db2 1 exUser.id = [] ↔ postPairRows exDB 1 exUser.id = [])) ∧
     (∃ db1 r1 db2 r2,
        commentsUpvote exDB exUser 1 200 = .ok (db1, r1) ∧
        commentsUpvote db1 exUser 1 201 = .ok (db2, r2) ∧
        db2.comments = exDB.comments ∧
        (commentPairRows db2 1 exUser.id = [] ↔ commentPairRows exDB 1 exUser.id = []))) :=
  ⟨by decide, by decide, by decide, by decide,
   C2_double_toggle_restores exDB exUser 1 1 200 201 (by decide) (by decide)
     (by decide) (by decide)⟩

theorem selectPostRow_id (user : Option CtxUser)
    (trip : PostRow × Option UserRow × Option PostUpvoteRow) :
    (selectPostRow user trip).id = trip.1.id := rfl

theorem selectPostRow_idUpvoted_none
    (trip : PostRow × Option UserRow × Option PostUpvoteRow) :
    (selectPostRow none trip).idUpvoted = false := rfl

theorem selectPostRow_idUpvoted_some (u : CtxUser)
    (trip : PostRow × Option UserRow × Option PostUpvoteRow) :
    (selectPostRow (some u) trip).idUpvoted = trip.2.2.isSome := rfl

/-- The `commentUpvotes` collection of a listed comment is nonempty
exactly when an upvote row for the (filtered user, comment) pair exists. -/
theorem commentVoteViews_ne_nil_iff (db : DB) (s : String) (cid : Nat) :
    commentVoteViews db s cid ≠ [] ↔
      ∃ v ∈ db.commentUpvotes, v.commentId = cid ∧ v.userId = s := by
  rw [Ne, commentVoteViews_eq_nil_iff]
  constructor
  · intro h
    cases hf : db.commentUpvotes.filter (fun v => v.commentId == cid && v.userId == s) with
    | nil => exact absurd hf h
    | cons a as =>
      have ham : a ∈ db.commentUpvotes.filter
          (fun v => v.commentId == cid && v.userId == s) := by
        rw [hf]
        exact List.mem_cons_self a as
      have h2 := List.mem_filter.mp ham
      have h3 := h2.2
      simp only [Bool.and_eq_true, beq_iff_eq] at h3
      exact ⟨a, h2.1, h3.1, h3.2⟩
  · rintro ⟨v, hvm, h1, h2⟩ hnil
    have hvf : v ∈ db.commentUpvotes.filter
        (fun v => v.commentId == cid && v.userId == s) :=
      List.mem_filter.mpr ⟨hvm, by simp [h1, h2]⟩
    rw [hnil] at hvf
    exact absurd hvf (List.not_mem_nil v)

/-- When no upvote row carries the empty-string user id, the anonymous
sentinel filter returns nothing. -/
theorem commentVoteViews_anon_empty (db : DB)
    (hwf : ∀ v ∈ db.commentUpvotes, v.userId ≠ "") (cid : Nat) :
    commentVoteViews db "" cid = [] := by
  rw [commentVoteViews_eq_nil_iff, List.filter_eq_nil_iff]
  intro v hv
  simp only [Bool.and_eq_true, beq_iff_eq, not_and]
  intro _ hb
  exact hwf v hv hb

/-- C6 counterexample: the claim says an anonymous caller's listings mark
every row not-upvoted regardless of what upvote rows exist.  `c6db` is a
schema-valid store containing a comment-upvote row whose `userId` is the
empty string; the anonymous comment listing filters by the sentinel
`user?.id ?? ""`, matches that row, and returns the comment annotated
with a nonempty upvote collection. -/
theorem C6_counterexample :
    postsListComments c6db none 1 exQ false =
      .ok ⟨true, "Comments fetched successfully",
        [⟨1, "u1", 1, none, "c", 2, 0, 0, 0, some ⟨"u1", "alice"⟩, [⟨""⟩], []⟩],
        ⟨1, 1⟩⟩ ∧
    ([(⟨""⟩ : UpvoteView)] : List UpvoteView) ≠ ([] : List UpvoteView) :=
  ⟨by rfl, by decide⟩

/-- C6 amended: the posts listing annotates every row `idUpvoted = false`
for an anonymous caller unconditionally; the comment listings return an
empty `commentUpvotes` collection on every row (and every child-preview
row) for an anonymous caller provided no upvote row carries an
empty-string user id — true of every application-written row, since
authenticated user ids are nonempty — and for an authenticated caller
every listed row is annotated upvoted exactly when an upvote row for
(caller, row) exists. -/
theorem C6_upvoted_annotation (db : DB) (u : CtxUser) (q : PaginationQuery)
    (pid cid : Nat) (ic : Bool)
    (hwf : ∀ v ∈ db.commentUpvotes, v.userId ≠ "") :
    (∀ r ∈ (postsList db none q).data, r.idUpvoted = false) ∧
    (∀ r ∈ (postsList db (some u) q).data,
      (r.idUpvoted = true ↔ ∃ v ∈ db.postUpvotes, v.postId = r.id ∧ v.userId = u.id)) ∧
    (∀ resp, postsListComments db none pid q ic = .ok resp →
      ∀ r ∈ resp.data, r.commentUpvotes = [] ∧
        ∀ ch ∈ r.childComments, ch.commentUpvotes = []) ∧
    (∀ resp, postsListComments db (some u) pid q ic = .ok resp →
      ∀ r ∈ resp.data,
        (r.commentUpvotes ≠ [] ↔
          ∃ v ∈ db.commentUpvotes, v.commentId = r.id ∧ v.userId = u.id) ∧
        ∀ ch ∈ r.childComments,
          (ch.commentUpvotes ≠ [] ↔
            ∃ v ∈ db.commentUpvotes, v.commentId = ch.id ∧ v.userId = u.id)) ∧
    (∀ r ∈ (commentsListReplies db none cid q).data, r.commentUpvotes = []) ∧
    (∀ r ∈ (commentsListReplies db (some u) cid q).data,
      (r.commentUpvotes ≠ [] ↔
        ∃ v ∈ db.commentUpvotes, v.commentId = r.id ∧ v.userId = u.id)) := by
  refine ⟨?_, ?_, ?_, ?_, ?_, ?_⟩
  · intro r hr
    obtain ⟨trip, htrip, rfl⟩ := mem_postsList_data hr
    exact selectPostRow_idUpvoted_none trip
  · intro r hr
    obtain ⟨trip, htrip, rfl⟩ := mem_postsList_data hr
    have h3 := (mem_postsJoined htrip).2.2 u.id rfl
    rw [selectPostRow_idUpvoted_some, selectPostRow_id]
    rcases h3 with ⟨hvnone, hfe⟩ | ⟨v, hvm, hv1, hv2, hvsome⟩
    · rw [hvnone]
      simp only [Option.isSome_none, Bool.false_eq_true, false_iff]
      rintro ⟨w, hwm, hw1, hw2⟩
      have hwf2 : w ∈ db.postUpvotes.filter
          (fun v => v.postId == trip.1.id && v.userId == u.id) :=
        List.mem_filter.mpr ⟨hwm, by simp [hw1, hw2]⟩
      rw [hfe] at hwf2
      exact absurd hwf2 (List.not_mem_nil w)
    · rw [hvsome]
      simp only [Option.isSome_some, true_iff]
      exact ⟨v, hvm, hv1, hv2⟩
  · intro resp hresp r hr
    obtain ⟨c, hcm, rfl⟩ := mem_postsListComments_data hresp hr
    constructor
    · show commentVoteViews db (userIdStr none) c.id = []
      exact commentVoteViews_anon_empty db hwf c.id
    · intro ch hch
      obtain ⟨k, hkm, rfl⟩ := mem_selectRootComment_children hch
      show commentVoteViews db (userIdStr none) k.id = []
      exact commentVoteViews_anon_empty db hwf k.id
  · intro resp hresp r hr
    obtain ⟨c, hcm, rfl⟩ := mem_postsListComments_data hresp hr
    constructor
    · show commentVoteViews db (userIdStr (some u)) c.id ≠ [] ↔
        ∃ v ∈ db.commentUpvotes, v.commentId = c.id ∧ v.userId = u.id
      exact commentVoteViews_ne_nil_iff db u.id c.id
    · intro ch hch
      obtain ⟨k, hkm, rfl⟩ := mem_selectRootComment_children hch
      show commentVoteViews db (userIdStr (some u)) k.id ≠ [] ↔
        ∃ v ∈ db.commentUpvotes, v.commentId = k.id ∧ v.userId = u.id
      exact commentVoteViews_ne_nil_iff db u.id k.id
  · intro r hr
    obtain ⟨c, hcm, rfl⟩ := mem_commentsListReplies_data hr
    show commentVoteViews db (userIdStr none) c.id = []
    exact commentVoteViews_anon_empty db hwf c.id
  · intro r hr
    obtain ⟨c, hcm, rfl⟩ := mem_commentsListReplies_data hr
    show commentVoteViews db (userIdStr (some u)) c.id ≠ [] ↔
      ∃ v ∈ db.commentUpvotes, v.commentId = c.id ∧ v.userId = u.id
    exact commentVoteViews_ne_nil_iff db u.id c.id

/-- C6 witness: the annotation properties instantiated on `exDB` (whose
upvote rows all carry nonempty user ids). -/
theorem C6_witness :
    (∀ v ∈ exDB.commentUpvotes, v.userId ≠ "") ∧
    ((∀ r ∈ (postsList exDB none exQ).data, r.idUpvoted = false) ∧
     (∀ r ∈ (postsList exDB (some exUser) exQ).data,
       (r.idUpvoted = true ↔
         ∃ v ∈ exDB.postUpvotes, v.postId = r.id ∧ v.userId = exUser.id)) ∧
     (∀ resp, postsListComments exDB none 1 exQ true = .ok resp →
       ∀ r ∈ resp.data, r.commentUpvotes = [] ∧
         ∀ ch ∈ r.childComments, ch.commentUpvotes = []) ∧
     (∀ resp, postsListComments exDB (some exUser) 1 exQ true = .ok resp →
       ∀ r ∈ resp.data,
         (r.commentUpvotes ≠ [] ↔
           ∃ v ∈ exDB.commentUpvotes, v.commentId = r.id ∧ v.userId = exUser.id) ∧
         ∀ ch ∈ r.childComments,
           (ch.commentUpvotes ≠ [] ↔
             ∃ v ∈ exDB.commentUpvotes, v.commentId = ch.id ∧ v.userId = exUser.id)) ∧
     (∀ r ∈ (commentsListReplies exDB none 1 exQ).data, r.commentUpvotes = []) ∧
     (∀ r ∈ (commentsListReplies exDB (some exUser) 1 exQ).data,
       (r.commentUpvotes ≠ [] ↔
         ∃ v ∈ exDB.commentUpvotes, v.commentId = r.id ∧ v.userId = exUser.id))) :=
  ⟨by decide, C6_upvoted_annotation exDB exUser exQ 1 1 true (by decide)⟩
